import Mathlib

/-!
Shallow embedding of the cmc-supply-api aggregator and store.

The aggregator lives in `index.UpdateConsensusState` (the loop body that
converts a batch of reverted/applied walletd chain updates into supply and
address-balance deltas and commits them) and the store in
`sqlite.Store.UpdateState` / `Store.State` / `Store.FoundationTreasury`.

Machine integers: `types.Currency` is an unsigned 128-bit integer whose
`Add`/`Sub` methods panic on overflow/underflow.  We model a currency value
as a `Nat` and the checked operations as `Option Nat` (`none` = panic).
Addresses and block IDs are abstracted as `Nat` (the 32-byte value read as a
number); `types.VoidAddress` is the all-zero address, i.e. `0`.
-/

namespace CmcSupply

/-- Modulus of the 128-bit `types.Currency` type. -/
def currencyModulus : Nat := 2 ^ 128

/-- Checked addition, `types.Currency.Add`: panics (= `none`) on overflow
past 128 bits. -/
def cAdd (a b : Nat) : Option Nat :=
  if a + b < currencyModulus then some (a + b) else none

/-- Checked subtraction, `types.Currency.Sub`: panics (= `none`) on
underflow. -/
def cSub (a b : Nat) : Option Nat :=
  if b ≤ a then some (a - b) else none

/-- `types.Currency.SubWithUnderflow`: returns the wrapped (two's-complement
style, mod 2^128) difference together with a flag that is `true` exactly when
the subtraction underflowed. -/
def subWithUnderflow (a b : Nat) : Nat × Bool :=
  ((a + currencyModulus - b) % currencyModulus, decide (a < b))

/-- A 32-byte address, read as a number.  `types.VoidAddress` is the all-zero
address, i.e. `0`. -/
abbrev Address := Nat

/-- The canonical unspendable address, `types.VoidAddress` (all zero bytes). -/
def VoidAddress : Address := 0

/-- `types.ChainIndex`: block identifier plus height. -/
@[ext]
structure ChainIndex where
  id : Nat
  height : Nat
deriving Repr, DecidableEq

/-- `index.State`: the single aggregate supply snapshot. -/
@[ext]
structure State where
  index : ChainIndex
  circulatingSupply : Nat
  totalSupply : Nat
  burnedSupply : Nat
deriving Repr, DecidableEq

/-- `index.AddressDelta`: net incoming/outgoing per address for one batch. -/
@[ext]
structure AddressDelta where
  address : Address
  incoming : Nat
  outgoing : Nat
deriving Repr, DecidableEq

/-- The Go zero value of `index.AddressDelta` (all-zero address, zero
incoming, zero outgoing), as produced by `make([]AddressDelta, n)`. -/
def defaultAddressDelta : AddressDelta := ⟨0, 0, 0⟩

/-- `types.SiacoinOutput`: destination address and value. -/
@[ext]
structure SiacoinOutput where
  address : Address
  value : Nat
deriving Repr, DecidableEq

/-- One siacoin element as visited by `ForEachSiacoinElement`, together with
its created/spent flags for the observed update. -/
@[ext]
structure SiacoinElementDiff where
  siacoinOutput : SiacoinOutput
  created : Bool
  spent : Bool
deriving Repr, DecidableEq

/-- The parts of `types.V2FileContract` read by the aggregator. -/
@[ext]
structure V2FileContract where
  hostOutputValue : Nat
  missedHostValue : Nat
deriving Repr, DecidableEq

/-- One v2 file contract element as visited by
`ForEachV2FileContractElement`: whether a resolution is present (`res != nil`)
and whether it is a `*types.V2FileContractExpiration`. -/
@[ext]
structure V2FileContractElementDiff where
  v2FileContract : V2FileContract
  hasResolution : Bool
  isExpiration : Bool
deriving Repr, DecidableEq

/-- The parts of `types.Transaction` read by the aggregator: siacoin output
values (used only for the genesis block) and arbitrary data entries (scanned
for foundation address updates).  Arbitrary data is a byte string, modelled
as a list of bytes. -/
@[ext]
structure Transaction where
  siacoinOutputValues : List Nat
  arbitraryData : List (List Nat)
deriving Repr, DecidableEq

/-- The parts of `types.Block` read by the aggregator. -/
@[ext]
structure Block where
  transactions : List Transaction
deriving Repr, DecidableEq

/-- The parts of `consensus.State` read by the aggregator: the chain index it
corresponds to and the current foundation management address. -/
@[ext]
structure ChainState where
  index : ChainIndex
  foundationManagementAddress : Address
deriving Repr, DecidableEq

/-- The height-indexed consensus constants consulted by the aggregator.
`blockRewardValue h` is the value of `State.BlockReward()` for a state at
height `h` (the reward of its child block); `foundationSubsidyValue h` is
`some` of the subsidy output value when `State.FoundationSubsidy()` reports
`ok` for a state at height `h`.  These are functions of the external
consensus rules, passed in as an oracle. -/
structure Rules where
  blockRewardValue : Nat → Nat
  foundationSubsidyValue : Nat → Option Nat

/-- One applied update (`chain.ApplyUpdate` as delivered by
`ConsensusUpdates`): `state` is the post-apply consensus state. -/
@[ext]
structure ApplyUpdate where
  state : ChainState
  block : Block
  siacoinElements : List SiacoinElementDiff
  v2FileContractElements : List V2FileContractElementDiff
deriving Repr, DecidableEq

/-- One reverted update (`chain.RevertUpdate`): `state` is the parent of the
reverted block (the post-revert consensus state). -/
@[ext]
structure RevertUpdate where
  state : ChainState
  block : Block
  siacoinElements : List SiacoinElementDiff
  v2FileContractElements : List V2FileContractElementDiff
deriving Repr, DecidableEq

/-- Accumulator for the per-element processing: the running supply state and
the `addressDeltas` map (modelled as an association list in insertion
order). -/
@[ext]
structure ElemAcc where
  state : State
  deltas : List AddressDelta
deriving Repr, DecidableEq

/-- `incrementAddressDelta` from `UpdateConsensusState`: create the entry if
absent (Go zero value), then `Currency.Add` the incoming and outgoing
amounts (checked). -/
def incrementAddressDelta (m : List AddressDelta) (addr : Address) (incoming outgoing : Nat) :
    Option (List AddressDelta) :=
  match m with
  | [] =>
    match cAdd 0 incoming, cAdd 0 outgoing with
    | some i, some o => some [⟨addr, i, o⟩]
    | _, _ => none
  | d :: rest =>
    if d.address = addr then
      match cAdd d.incoming incoming, cAdd d.outgoing outgoing with
      | some i, some o => some (⟨addr, i, o⟩ :: rest)
      | _, _ => none
    else
      match incrementAddressDelta rest addr incoming outgoing with
      | some rest' => some (d :: rest')
      | none => none

/-- The `ForEachSiacoinElement` callback of the applied-update loop
(`UpdateConsensusState`, applied case): skip elements both created and spent
in the batch; burn void outputs (burned += v, total -= v); credit created
outputs (delta incoming, circulating += v); debit spent outputs (delta
outgoing, circulating -= v). -/
def applySiacoinElement (acc : ElemAcc) (e : SiacoinElementDiff) : Option ElemAcc :=
  if e.created && e.spent then
    some acc
  else if e.siacoinOutput.address = VoidAddress then
    match cAdd acc.state.burnedSupply e.siacoinOutput.value,
          cSub acc.state.totalSupply e.siacoinOutput.value with
    | some burned, some total =>
      some ⟨{ acc.state with burnedSupply := burned, totalSupply := total }, acc.deltas⟩
    | _, _ => none
  else if e.created then
    match incrementAddressDelta acc.deltas e.siacoinOutput.address e.siacoinOutput.value 0,
          cAdd acc.state.circulatingSupply e.siacoinOutput.value with
    | some deltas, some circ =>
      some ⟨{ acc.state with circulatingSupply := circ }, deltas⟩
    | _, _ => none
  else if e.spent then
    match incrementAddressDelta acc.deltas e.siacoinOutput.address 0 e.siacoinOutput.value,
          cSub acc.state.circulatingSupply e.siacoinOutput.value with
    | some deltas, some circ =>
      some ⟨{ acc.state with circulatingSupply := circ }, deltas⟩
    | _, _ => none
  else
    some acc

/-- The `ForEachSiacoinElement` callback of the reverted-update loop: the
algebraic inverse of the applied case, computed from the same element data. -/
def revertSiacoinElement (acc : ElemAcc) (e : SiacoinElementDiff) : Option ElemAcc :=
  if e.created && e.spent then
    some acc
  else if e.siacoinOutput.address = VoidAddress then
    match cAdd acc.state.totalSupply e.siacoinOutput.value,
          cSub acc.state.burnedSupply e.siacoinOutput.value with
    | some total, some burned =>
      some ⟨{ acc.state with burnedSupply := burned, totalSupply := total }, acc.deltas⟩
    | _, _ => none
  else if e.created then
    match incrementAddressDelta acc.deltas e.siacoinOutput.address 0 e.siacoinOutput.value,
          cSub acc.state.circulatingSupply e.siacoinOutput.value with
    | some deltas, some circ =>
      some ⟨{ acc.state with circulatingSupply := circ }, deltas⟩
    | _, _ => none
  else if e.spent then
    match incrementAddressDelta acc.deltas e.siacoinOutput.address e.siacoinOutput.value 0,
          cAdd acc.state.circulatingSupply e.siacoinOutput.value with
    | some deltas, some circ =>
      some ⟨{ acc.state with circulatingSupply := circ }, deltas⟩
    | _, _ => none
  else
    some acc

/-- Iteration of `ForEachSiacoinElement` over all elements of an applied
update. -/
def applySiacoinElements (acc : ElemAcc) : List SiacoinElementDiff → Option ElemAcc
  | [] => some acc
  | e :: rest =>
    match applySiacoinElement acc e with
    | some acc' => applySiacoinElements acc' rest
    | none => none

/-- Iteration of `ForEachSiacoinElement` over all elements of a reverted
update. -/
def revertSiacoinElements (acc : ElemAcc) : List SiacoinElementDiff → Option ElemAcc
  | [] => some acc
  | e :: rest =>
    match revertSiacoinElement acc e with
    | some acc' => revertSiacoinElements acc' rest
    | none => none

/-- The `ForEachV2FileContractElement` callback of the applied-update loop:
only expirations with `SubWithUnderflow` reporting `true` contribute;
the wrapped difference is added to burned supply and subtracted from total
supply.  (The source's `burn, ok := ...SubWithUnderflow(...); if !ok`
compares against the underflow flag, so the non-underflow case is the one
that is skipped.) -/
def applyV2FileContractElement (st : State) (c : V2FileContractElementDiff) : Option State :=
  if c.hasResolution = false then
    some st
  else if c.isExpiration = false then
    some st
  else
    let p := subWithUnderflow c.v2FileContract.hostOutputValue c.v2FileContract.missedHostValue
    if p.2 = false then
      some st
    else
      match cAdd st.burnedSupply p.1, cSub st.totalSupply p.1 with
      | some burned, some total =>
        some { st with burnedSupply := burned, totalSupply := total }
      | _, _ => none

/-- The `ForEachV2FileContractElement` callback of the reverted-update loop:
the algebraic inverse of the applied case. -/
def revertV2FileContractElement (st : State) (c : V2FileContractElementDiff) : Option State :=
  if c.hasResolution = false then
    some st
  else if c.isExpiration = false then
    some st
  else
    let p := subWithUnderflow c.v2FileContract.hostOutputValue c.v2FileContract.missedHostValue
    if p.2 = false then
      some st
    else
      match cSub st.burnedSupply p.1, cAdd st.totalSupply p.1 with
      | some burned, some total =>
        some { st with burnedSupply := burned, totalSupply := total }
      | _, _ => none

/-- Iteration over all v2 file contract elements of an applied update. -/
def applyV2FileContractElements (st : State) : List V2FileContractElementDiff → Option State
  | [] => some st
  | c :: rest =>
    match applyV2FileContractElement st c with
    | some st' => applyV2FileContractElements st' rest
    | none => none

/-- Iteration over all v2 file contract elements of a reverted update. -/
def revertV2FileContractElements (st : State) : List V2FileContractElementDiff → Option State
  | [] => some st
  | c :: rest =>
    match revertV2FileContractElement st c with
    | some st' => revertV2FileContractElements st' rest
    | none => none

/-- Failure modes of the aggregation loop body.  `decodeFailure` is the
`errors.New("transaction contains an improperly-encoded
FoundationAddressUpdate")` return; the others are the source's panics
(`Currency.Add`/`Currency.Sub` overflow, the genesis check at line 294 and
the supply-invariant check at line 362). -/
inductive AggError where
  | decodeFailure
  | arithmeticViolation
  | genesisFoundationUnset
  | invariantViolation
deriving Repr, DecidableEq

/-- `types.SpecifierFoundation`: the 16-byte specifier built from the string
"foundation", zero padded. -/
def specifierFoundation : List Nat :=
  [102, 111, 117, 110, 100, 97, 116, 105, 111, 110, 0, 0, 0, 0, 0, 0]

/-- Read a big-endian byte string as one number (abstraction of a 32-byte
hash/address value). -/
def bytesToAddress (bs : List Nat) : Address :=
  bs.foldl (fun a b => a * 256 + b % 256) 0

/-- `types.FoundationAddressUpdate`: new primary and failsafe addresses. -/
@[ext]
structure FoundationAddressUpdate where
  newPrimary : Address
  newFailsafe : Address
deriving Repr, DecidableEq

/-- `types.FoundationAddressUpdate.DecodeFrom` over a `BufDecoder` of the
payload: reads two 32-byte addresses; the decoder reports an error exactly
when the buffer holds fewer than 64 bytes (trailing unread bytes are not an
error for `DecodeFrom`). -/
def decodeFoundationAddressUpdate (bs : List Nat) : Option FoundationAddressUpdate :=
  if 64 ≤ bs.length then
    some ⟨bytesToAddress (bs.take 32), bytesToAddress ((bs.drop 32).take 32)⟩
  else
    none

/-- `bytes.HasPrefix(arb, types.SpecifierFoundation[:])` for a 16-byte
specifier. -/
def hasFoundationSpecifier (arb : List Nat) : Bool :=
  arb.take 16 = specifierFoundation

/-- The inner arbitrary-data loop of the applied-update processing: entries
with the foundation specifier are decoded (a malformed payload is a hard
error); each decoded update appends its new primary address. -/
def scanTxnArbData (addrs : List Address) : List (List Nat) → Except AggError (List Address)
  | [] => .ok addrs
  | arb :: rest =>
    if hasFoundationSpecifier arb then
      match decodeFoundationAddressUpdate (arb.drop 16) with
      | none => .error .decodeFailure
      | some u => scanTxnArbData (addrs ++ [u.newPrimary]) rest
    else
      scanTxnArbData addrs rest

/-- The outer transaction loop of the foundation-address scan. -/
def scanTransactions (addrs : List Address) : List Transaction → Except AggError (List Address)
  | [] => .ok addrs
  | txn :: rest =>
    match scanTxnArbData addrs txn.arbitraryData with
    | .ok addrs' => scanTransactions addrs' rest
    | .error e => .error e

/-- Aggregation accumulator across the updates of one batch: the running
supply state, the `addressDeltas` map and the `newFoundationAddresses`
slice. -/
@[ext]
structure Agg where
  state : State
  deltas : List AddressDelta
  newFoundationAddresses : List Address
deriving Repr, DecidableEq

/-- Genesis output summation (`for txn … for sco … TotalSupply.Add`). -/
def addOutputValues (total : Nat) : List Nat → Option Nat
  | [] => some total
  | v :: rest =>
    match cAdd total v with
    | some t => addOutputValues t rest
    | none => none

/-- Genesis total-supply accumulation over all transactions of the block. -/
def addGenesisOutputs (total : Nat) : List Transaction → Option Nat
  | [] => some total
  | txn :: rest =>
    match addOutputValues total txn.siacoinOutputValues with
    | some t => addGenesisOutputs t rest
    | none => none

/-- The height-dependent head of the applied-update processing: at genesis,
sum the block's siacoin outputs into total supply, require a non-void
foundation management address and record it; otherwise add the parent
state's block reward and foundation subsidy (the source decrements the
post-apply state's height to obtain the parent state). -/
def applyRewardOrGenesis (rules : Rules) (agg : Agg) (cau : ApplyUpdate) :
    Except AggError Agg :=
  if cau.state.index.height = 0 then
    match addGenesisOutputs agg.state.totalSupply cau.block.transactions with
    | none => .error .arithmeticViolation
    | some total =>
      if cau.state.foundationManagementAddress = VoidAddress then
        .error .genesisFoundationUnset
      else
        .ok ⟨{ agg.state with totalSupply := total }, agg.deltas,
          agg.newFoundationAddresses ++ [cau.state.foundationManagementAddress]⟩
  else
    match cAdd agg.state.totalSupply (rules.blockRewardValue (cau.state.index.height - 1)) with
    | none => .error .arithmeticViolation
    | some total =>
      match rules.foundationSubsidyValue (cau.state.index.height - 1) with
      | none => .ok ⟨{ agg.state with totalSupply := total }, agg.deltas, agg.newFoundationAddresses⟩
      | some v =>
        match cAdd total v with
        | none => .error .arithmeticViolation
        | some total' =>
          .ok ⟨{ agg.state with totalSupply := total' }, agg.deltas, agg.newFoundationAddresses⟩

/-- Processing of one applied update (`UpdateConsensusState`, applied loop
body): genesis/reward accounting, siacoin elements, v2 contract elements,
foundation arbitrary-data scan, then the chain index moves to the post-apply
index. -/
def applyUpdateState (rules : Rules) (agg : Agg) (cau : ApplyUpdate) : Except AggError Agg :=
  match applyRewardOrGenesis rules agg cau with
  | .error e => .error e
  | .ok agg1 =>
    match applySiacoinElements ⟨agg1.state, agg1.deltas⟩ cau.siacoinElements with
    | none => .error .arithmeticViolation
    | some acc =>
      match applyV2FileContractElements acc.state cau.v2FileContractElements with
      | none => .error .arithmeticViolation
      | some st =>
        match scanTransactions agg1.newFoundationAddresses cau.block.transactions with
        | .error e => .error e
        | .ok addrs => .ok ⟨{ st with index := cau.state.index }, acc.deltas, addrs⟩

/-- Processing of one reverted update (`UpdateConsensusState`, reverted loop
body): subtract the parent state's block reward and foundation subsidy,
revert siacoin elements and v2 contract elements, then the chain index moves
back to the parent index (`cru.State.Index`). -/
def revertUpdateState (rules : Rules) (agg : Agg) (cru : RevertUpdate) : Except AggError Agg :=
  match cSub agg.state.totalSupply (rules.blockRewardValue cru.state.index.height) with
  | none => .error .arithmeticViolation
  | some total =>
    match
      (match rules.foundationSubsidyValue cru.state.index.height with
       | none => some total
       | some v => cSub total v) with
    | none => .error .arithmeticViolation
    | some total' =>
      match revertSiacoinElements ⟨{ agg.state with totalSupply := total' }, agg.deltas⟩
          cru.siacoinElements with
      | none => .error .arithmeticViolation
      | some acc =>
        match revertV2FileContractElements acc.state cru.v2FileContractElements with
        | none => .error .arithmeticViolation
        | some st =>
          .ok ⟨{ st with index := cru.state.index }, acc.deltas, agg.newFoundationAddresses⟩

/-- The reverted-updates loop of one batch. -/
def revertUpdates (rules : Rules) (agg : Agg) : List RevertUpdate → Except AggError Agg
  | [] => .ok agg
  | u :: rest =>
    match revertUpdateState rules agg u with
    | .ok agg' => revertUpdates rules agg' rest
    | .error e => .error e

/-- The applied-updates loop of one batch. -/
def applyUpdates (rules : Rules) (agg : Agg) : List ApplyUpdate → Except AggError Agg
  | [] => .ok agg
  | u :: rest =>
    match applyUpdateState rules agg u with
    | .ok agg' => applyUpdates rules agg' rest
    | .error e => .error e

/-- The result handed to `store.UpdateState` for one batch. -/
@[ext]
structure BatchResult where
  state : State
  deltas : List AddressDelta
  newFoundationAddresses : List Address
deriving Repr, DecidableEq

/-- One non-empty iteration of the ingestion loop between the
`ConsensusUpdates` poll and the `store.UpdateState` call: process reverted
updates, then applied updates, check the supply invariant
(`TotalSupply.Cmp(CirculatingSupply) < 0` panics), then build the deltas
slice with `make([]AddressDelta, len(addressDeltas))` followed by `append`
(which keeps the pre-allocated zero values in front of the appended real
deltas). -/
def processBatch (rules : Rules) (state0 : State) (reverted : List RevertUpdate)
    (applied : List ApplyUpdate) : Except AggError BatchResult :=
  match revertUpdates rules ⟨state0, [], []⟩ reverted with
  | .error e => .error e
  | .ok agg1 =>
    match applyUpdates rules agg1 applied with
    | .error e => .error e
    | .ok agg2 =>
      if agg2.state.totalSupply < agg2.state.circulatingSupply then
        .error .invariantViolation
      else
        .ok ⟨agg2.state,
          List.replicate agg2.deltas.length defaultAddressDelta ++ agg2.deltas,
          agg2.newFoundationAddresses⟩

/-- A row of the `address_balances` table (`address` is UNIQUE,
`is_foundation` defaults to false). -/
@[ext]
structure AddressRow where
  address : Address
  siacoinBalance : Nat
  isFoundation : Bool
deriving Repr, DecidableEq

/-- The SQLite database contents read and written by the store: the
`address_balances` rows and the singleton `global_settings` supply state. -/
@[ext]
structure StoreState where
  rows : List AddressRow
  global : State
deriving Repr, DecidableEq

/-- Failure modes of the store's transaction body.  `currencyRange` models
the `Currency.Add`/`Currency.Sub` panic while computing a new balance (the
in-flight transaction is rolled back, not committed). -/
inductive StoreError where
  | currencyRange
deriving Repr, DecidableEq

/-- Row-existence test for an address (the UNIQUE key of
`address_balances`). -/
def containsAddress (rows : List AddressRow) (addr : Address) : Bool :=
  rows.any (fun r => r.address = addr)

/-- `INSERT INTO address_balances (address, siacoin_balance, is_foundation)
VALUES ($1, $2, true) ON CONFLICT (address) DO UPDATE SET
is_foundation=true` executed with a zero balance. -/
def insertFoundationAddress (rows : List AddressRow) (addr : Address) : List AddressRow :=
  if containsAddress rows addr then
    rows.map (fun r => if r.address = addr then { r with isFoundation := true } else r)
  else
    rows ++ [⟨addr, 0, true⟩]

/-- The foundation-address loop of `Store.UpdateState`. -/
def insertFoundationAddresses (rows : List AddressRow) : List Address → List AddressRow
  | [] => rows
  | addr :: rest => insertFoundationAddresses (insertFoundationAddress rows addr) rest

/-- `SELECT siacoin_balance FROM address_balances WHERE address=$1`;
`sql.ErrNoRows` leaves the zero `types.Currency`. -/
def lookupBalance (rows : List AddressRow) (addr : Address) : Nat :=
  match rows.find? (fun r => r.address = addr) with
  | some r => r.siacoinBalance
  | none => 0

/-- `INSERT INTO address_balances (address, siacoin_balance) VALUES ($1, $2)
ON CONFLICT (address) DO UPDATE SET siacoin_balance=EXCLUDED.siacoin_balance`:
a fresh row starts with `is_foundation`'s default (false); an existing row
keeps its flag. -/
def upsertBalance (rows : List AddressRow) (addr : Address) (bal : Nat) : List AddressRow :=
  if containsAddress rows addr then
    rows.map (fun r => if r.address = addr then { r with siacoinBalance := bal } else r)
  else
    rows ++ [⟨addr, bal, false⟩]

/-- One iteration of the address-delta loop of `Store.UpdateState`:
`balance = balance.Add(delta.Incoming).Sub(delta.Outgoing)` (checked), then
the balance upsert. -/
def applyAddressDelta (rows : List AddressRow) (d : AddressDelta) :
    Except StoreError (List AddressRow) :=
  match cAdd (lookupBalance rows d.address) d.incoming with
  | none => .error .currencyRange
  | some b1 =>
    match cSub b1 d.outgoing with
    | none => .error .currencyRange
    | some b2 => .ok (upsertBalance rows d.address b2)

/-- The address-delta loop of `Store.UpdateState`. -/
def applyAddressDeltas (rows : List AddressRow) : List AddressDelta →
    Except StoreError (List AddressRow)
  | [] => .ok rows
  | d :: rest =>
    match applyAddressDelta rows d with
    | .ok rows' => applyAddressDeltas rows' rest
    | .error e => .error e

/-- The body of the single transaction of `Store.UpdateState`: foundation
upserts, address-delta application, then the `global_settings` overwrite. -/
def updateStateBody (state : State) (deltas : List AddressDelta)
    (foundationAddresses : List Address) (st : StoreState) : Except StoreError StoreState :=
  match applyAddressDeltas (insertFoundationAddresses st.rows foundationAddresses) deltas with
  | .error e => .error e
  | .ok rows' => .ok ⟨rows', state⟩

/-- The store's `transaction` wrapper (backed by the SQL engine's atomic
transactions, an out-of-scope collaborator): on success the body's result is
committed and becomes visible; on failure the database is left exactly as it
was.  The second component is the database contents visible after the call. -/
def runTransaction (st : StoreState) (body : StoreState → Except StoreError StoreState) :
    Except StoreError StoreState × StoreState :=
  match body st with
  | .ok st' => (.ok st', st')
  | .error e => (.error e, st)

/-- `Store.UpdateState`: the whole batch commit inside one transaction. -/
def updateState (st : StoreState) (state : State) (deltas : List AddressDelta)
    (foundationAddresses : List Address) : Except StoreError StoreState × StoreState :=
  runTransaction st (updateStateBody state deltas foundationAddresses)

/-- `Store.State`: read the singleton `global_settings` row. -/
def storeStateQuery (st : StoreState) : State := st.global

/-- The checked summation of `Store.FoundationTreasury`
(`value = value.Add(balance)`). -/
def addFoundationBalances (value : Nat) : List AddressRow → Option Nat
  | [] => some value
  | r :: rest =>
    match cAdd value r.siacoinBalance with
    | some v => addFoundationBalances v rest
    | none => none

/-- `Store.FoundationTreasury`: sum of `siacoin_balance` over the rows with
`is_foundation=true`. -/
def foundationTreasury (st : StoreState) : Option Nat :=
  addFoundationBalances 0 (st.rows.filter (fun r => r.isFoundation))

/-- The value served by `GET /supply/circulating`:
`state.CirculatingSupply.Sub(foundationTreasury)` (checked subtraction). -/
def reportedCirculatingSupply (st : StoreState) : Option Nat :=
  match foundationTreasury st with
  | some t => cSub st.global.circulatingSupply t
  | none => none

/-- Failure modes of one whole loop iteration (aggregation error or a store
commit failure, which the loop treats as fatal). -/
inductive RunError where
  | agg (e : AggError)
  | store (e : StoreError)
deriving Repr, DecidableEq

/-- One full ingestion-loop iteration for a non-empty poll result: aggregate
the batch starting from the store's current committed state, then commit via
`Store.UpdateState`.  Nothing becomes visible unless both steps succeed. -/
def commitBatch (rules : Rules) (store : StoreState)
    (b : List RevertUpdate × List ApplyUpdate) : Except RunError StoreState :=
  match processBatch rules store.global b.1 b.2 with
  | .error e => .error (.agg e)
  | .ok res =>
    match updateState store res.state res.deltas res.newFoundationAddresses with
    | (.ok _, st') => .ok st'
    | (.error e, _) => .error (.store e)

/-- Serial processing of a sequence of batches, re-reading the committed
state before each one, as the ingestion loop does. -/
def runBatches (rules : Rules) (store : StoreState) :
    List (List RevertUpdate × List ApplyUpdate) → Except RunError StoreState
  | [] => .ok store
  | b :: rest =>
    match commitBatch rules store b with
    | .ok st' => runBatches rules st' rest
    | .error e => .error e

/-- What the ingestion loop does next, as seen right after a
`ConsensusUpdates` poll returns. -/
inductive LoopAction where
  | waitForTick
  | pollImmediately
  | fatalExit
deriving Repr, DecidableEq

/-- Control flow of `UpdateConsensusState` after one poll: a transport error
is fatal (`log.Fatal`); an empty result executes `continue` of the inner
polling loop, whose next iteration polls again at once; a non-empty result
is processed and control likewise falls through to the next inner-loop
iteration.  The `time.After(15 * time.Second)` wait sits in the outer loop
and is not reachable from inside the inner loop. -/
def loopNextAction (pollFailed : Bool) (numReverted numApplied : Nat) : LoopAction :=
  if pollFailed then
    .fatalExit
  else if numReverted = 0 && numApplied = 0 then
    .pollImmediately
  else
    .pollImmediately

/-- Consensus rules used by the concrete scenarios: zero block reward, and a
foundation subsidy of value `x` for the block after height 0. -/
def scenarioRules (x : Nat) : Rules :=
  ⟨fun _ => 0, fun h => if h = 0 then some x else none⟩

/-- A genesis update designating `f` as the foundation management address. -/
def genesisUpdate (f : Address) : ApplyUpdate :=
  ⟨⟨⟨1, 0⟩, f⟩, ⟨[]⟩, [], []⟩

/-- An applied update for the block at height 1 whose only element is the
created-and-unspent subsidy output crediting `f` with `x`. -/
def subsidyUpdate (f : Address) (x : Nat) : ApplyUpdate :=
  ⟨⟨⟨2, 1⟩, f⟩, ⟨[]⟩, [⟨⟨f, x⟩, true, false⟩], []⟩

/-- A freshly initialized store: no address rows, zero supply at height 0. -/
def emptyStore : StoreState :=
  ⟨[], ⟨⟨0, 0⟩, 0, 0, 0⟩⟩

/-- Whether some row carries `addr` with `is_foundation=true`. -/
def isFoundationFlagged (rows : List AddressRow) (addr : Address) : Bool :=
  rows.any (fun r => r.address = addr && r.isFoundation)

/-- Unchecked sum of the balances of all foundation-flagged rows. -/
def sumFoundationBalances (rows : List AddressRow) : Nat :=
  ((rows.filter (fun r => r.isFoundation)).map (fun r => r.siacoinBalance)).sum

/-- The UNIQUE(address) table constraint, as a boolean on the row list. -/
def uniqueAddressesB : List AddressRow → Bool
  | [] => true
  | r :: rest => !containsAddress rest r.address && uniqueAddressesB rest

/-- Whether the deltas map already holds an entry for `a`. -/
def containsDelta (ds : List AddressDelta) (a : Address) : Bool :=
  ds.any (fun d => d.address = a)

/-- Key uniqueness of the `addressDeltas` map (a Go map has distinct keys). -/
def uniqueDeltaAddressesB : List AddressDelta → Bool
  | [] => true
  | d :: rest => !containsDelta rest d.address && uniqueDeltaAddressesB rest

/-- Incoming amount recorded for `a` in the deltas map (zero if absent). -/
def deltaIncoming (ds : List AddressDelta) (a : Address) : Nat :=
  match ds.find? (fun d => d.address = a) with
  | some d => d.incoming
  | none => 0

/-- Outgoing amount recorded for `a` in the deltas map (zero if absent). -/
def deltaOutgoing (ds : List AddressDelta) (a : Address) : Nat :=
  match ds.find? (fun d => d.address = a) with
  | some d => d.outgoing
  | none => 0

/-- Net effect of one applied element on the circulating supply, as an
integer. -/
def applyElemCircEffect (e : SiacoinElementDiff) : Int :=
  if e.created && e.spent then 0
  else if e.siacoinOutput.address = VoidAddress then 0
  else if e.created then (e.siacoinOutput.value : Int)
  else if e.spent then -(e.siacoinOutput.value : Int)
  else 0

/-- Net effect of one applied element on the burned supply, as an integer. -/
def applyElemBurnEffect (e : SiacoinElementDiff) : Int :=
  if e.created && e.spent then 0
  else if e.siacoinOutput.address = VoidAddress then (e.siacoinOutput.value : Int)
  else 0

/-- Net effect of one applied element on the total supply, as an integer. -/
def applyElemTotalEffect (e : SiacoinElementDiff) : Int :=
  if e.created && e.spent then 0
  else if e.siacoinOutput.address = VoidAddress then -(e.siacoinOutput.value : Int)
  else 0

/-- Incoming amount one applied element records for address `a`. -/
def applyElemInEffect (a : Address) (e : SiacoinElementDiff) : Nat :=
  if e.created && e.spent then 0
  else if e.siacoinOutput.address = VoidAddress then 0
  else if e.created then (if e.siacoinOutput.address = a then e.siacoinOutput.value else 0)
  else 0

/-- Outgoing amount one applied element records for address `a`. -/
def applyElemOutEffect (a : Address) (e : SiacoinElementDiff) : Nat :=
  if e.created && e.spent then 0
  else if e.siacoinOutput.address = VoidAddress then 0
  else if e.created then 0
  else if e.spent then (if e.siacoinOutput.address = a then e.siacoinOutput.value else 0)
  else 0

/-- Amount one applied contract element adds to the burned supply (and
removes from the total supply). -/
def contractBurnEffect (c : V2FileContractElementDiff) : Int :=
  if c.hasResolution = false then 0
  else if c.isExpiration = false then 0
  else if (subWithUnderflow c.v2FileContract.hostOutputValue c.v2FileContract.missedHostValue).2
      = false then 0
  else ((subWithUnderflow c.v2FileContract.hostOutputValue c.v2FileContract.missedHostValue).1 : Int)

/-- Block reward plus foundation subsidy for the state at height `h`, as an
integer. -/
def rewardEffect (rules : Rules) (h : Nat) : Int :=
  (rules.blockRewardValue h : Int) +
    (match rules.foundationSubsidyValue h with
     | some v => (v : Int)
     | none => 0)

/-- An arbitrary-data entry carrying the foundation specifier but a payload
too short to decode as a `FoundationAddressUpdate`. -/
def malformedArb : List Nat := specifierFoundation ++ [1, 2, 3]

/-- An applied update whose block holds a single transaction with the
malformed foundation arbitrary-data entry. -/
def malformedUpdate : ApplyUpdate :=
  ⟨⟨⟨2, 1⟩, 7⟩, ⟨[⟨[], [malformedArb]⟩]⟩, [], []⟩

/-- Consensus rules for the apply/revert round-trip example: block reward 2,
and a foundation subsidy of 3 for the block after height 1. -/
def roundTripRules : Rules := ⟨fun _ => 2, fun h => if h = 1 then some 3 else none⟩

/-- Applied update for the round-trip example: block at height 2 with a
created transfer, a spent transfer, a void burn and a skipped contract
resolution. -/
def roundTripApply : ApplyUpdate :=
  ⟨⟨⟨2, 2⟩, 9⟩, ⟨[]⟩,
   [⟨⟨7, 5⟩, true, false⟩, ⟨⟨8, 4⟩, false, true⟩, ⟨⟨0, 2⟩, true, false⟩],
   [⟨⟨10, 3⟩, true, true⟩]⟩

/-- The revert record for the same block: its state is the parent (height 1)
and it carries the same per-block element data. -/
def roundTripRevert : RevertUpdate :=
  ⟨⟨⟨1, 1⟩, 9⟩, ⟨[]⟩, roundTripApply.siacoinElements, roundTripApply.v2FileContractElements⟩

theorem cAdd_eq_some {a b c : Nat} :
    cAdd a b = some c ↔ a + b < currencyModulus ∧ c = a + b := by
  unfold cAdd
  by_cases h : a + b < currencyModulus
  · simp [h, eq_comm]
  · simp [h]

theorem cSub_eq_some {a b c : Nat} :
    cSub a b = some c ↔ b ≤ a ∧ c = a - b := by
  unfold cSub
  by_cases h : b ≤ a
  · simp [h, eq_comm]
  · simp [h]

/-- C5: the spec says an empty poll result (zero reverted, zero applied
updates) makes the loop wait for the next 15-second tick, re-polling
immediately only after a non-empty batch.  The code instead executes
`continue` of the inner polling loop, so after an empty result it re-polls
immediately; the 15-second wait in the outer loop is executed only once,
before the first poll, and is never reached again. -/
theorem c5_empty_poll_repolls_without_wait :
    loopNextAction false 0 0 = LoopAction.pollImmediately ∧
    loopNextAction false 0 0 ≠ LoopAction.waitForTick := by
  constructor
  · rfl
  · intro h
    exact LoopAction.noConfusion h

/-- C7: an element that is both created and spent within the same observed
update is skipped entirely by the aggregator, in both the apply and the
revert direction: no address-balance delta, no circulating-supply delta, and
no change to total or burned supply. -/
theorem c7_net_zero_elision (acc : ElemAcc) (e : SiacoinElementDiff)
    (hc : e.created = true) (hs : e.spent = true) :
    applySiacoinElement acc e = some acc ∧ revertSiacoinElement acc e = some acc := by
  unfold applySiacoinElement revertSiacoinElement
  rw [hc, hs]
  simp

theorem c7_net_zero_elision_witness :
    applySiacoinElement ⟨⟨⟨1, 1⟩, 10, 100, 3⟩, []⟩ ⟨⟨7, 5⟩, true, true⟩ =
        some ⟨⟨⟨1, 1⟩, 10, 100, 3⟩, []⟩ ∧
    revertSiacoinElement ⟨⟨⟨1, 1⟩, 10, 100, 3⟩, []⟩ ⟨⟨7, 5⟩, true, true⟩ =
        some ⟨⟨⟨1, 1⟩, 10, 100, 3⟩, []⟩ :=
  c7_net_zero_elision ⟨⟨⟨1, 1⟩, 10, 100, 3⟩, []⟩ ⟨⟨7, 5⟩, true, true⟩ rfl rfl

/-- C8: a created-and-unspent transfer to the void address produces no
address-balance delta and no circulating-supply delta; applying it adds its
value to burned supply and removes it from total supply, and reverting it
does the exact opposite. -/
theorem c8_void_exclusion (acc : ElemAcc) (e : SiacoinElementDiff)
    (hc : e.created = true) (hs : e.spent = false)
    (hv : e.siacoinOutput.address = VoidAddress) :
    (∀ acc', applySiacoinElement acc e = some acc' →
       acc'.deltas = acc.deltas ∧
       acc'.state.circulatingSupply = acc.state.circulatingSupply ∧
       acc'.state.index = acc.state.index ∧
       acc'.state.burnedSupply = acc.state.burnedSupply + e.siacoinOutput.value ∧
       acc'.state.totalSupply + e.siacoinOutput.value = acc.state.totalSupply) ∧
    (∀ acc', revertSiacoinElement acc e = some acc' →
       acc'.deltas = acc.deltas ∧
       acc'.state.circulatingSupply = acc.state.circulatingSupply ∧
       acc'.state.index = acc.state.index ∧
       acc'.state.burnedSupply + e.siacoinOutput.value = acc.state.burnedSupply ∧
       acc'.state.totalSupply = acc.state.totalSupply + e.siacoinOutput.value) := by
  constructor
  · intro acc' h
    unfold applySiacoinElement at h
    rw [hc, hs, hv] at h
    simp only [Bool.and_false, Bool.false_eq_true, if_false, if_pos rfl] at h
    cases hb : cAdd acc.state.burnedSupply e.siacoinOutput.value with
    | none => rw [hb] at h; cases h
    | some burned =>
      cases ht : cSub acc.state.totalSupply e.siacoinOutput.value with
      | none => rw [hb, ht] at h; cases h
      | some total =>
        rw [hb, ht] at h
        obtain ⟨hbound, hbe⟩ := cAdd_eq_some.mp hb
        obtain ⟨hle, hte⟩ := cSub_eq_some.mp ht
        cases h
        refine ⟨rfl, rfl, rfl, ?_, ?_⟩ <;> simp <;> omega
  · intro acc' h
    unfold revertSiacoinElement at h
    rw [hc, hs, hv] at h
    simp only [Bool.and_false, Bool.false_eq_true, if_false, if_pos rfl] at h
    cases ht : cAdd acc.state.totalSupply e.siacoinOutput.value with
    | none => rw [ht] at h; cases h
    | some total =>
      cases hb : cSub acc.state.burnedSupply e.siacoinOutput.value with
      | none => rw [ht, hb] at h; cases h
      | some burned =>
        rw [ht, hb] at h
        obtain ⟨hbound, hte⟩ := cAdd_eq_some.mp ht
        obtain ⟨hle, hbe⟩ := cSub_eq_some.mp hb
        cases h
        refine ⟨rfl, rfl, rfl, ?_, ?_⟩ <;> simp <;> omega

theorem c8_void_exclusion_witness :
    applySiacoinElement ⟨⟨⟨1, 1⟩, 10, 100, 3⟩, []⟩ ⟨⟨0, 5⟩, true, false⟩ =
      some ⟨⟨⟨1, 1⟩, 10, 95, 8⟩, []⟩ ∧
    (8 : Nat) = 3 + 5 ∧ (95 : Nat) + 5 = 100 := by
  refine ⟨by decide, ?_, ?_⟩
  · exact ((c8_void_exclusion ⟨⟨⟨1, 1⟩, 10, 100, 3⟩, []⟩ ⟨⟨0, 5⟩, true, false⟩ rfl rfl
      rfl).1 ⟨⟨⟨1, 1⟩, 10, 95, 8⟩, []⟩ (by decide)).2.2.2.1
  · exact ((c8_void_exclusion ⟨⟨⟨1, 1⟩, 10, 100, 3⟩, []⟩ ⟨⟨0, 5⟩, true, false⟩ rfl rfl
      rfl).1 ⟨⟨⟨1, 1⟩, 10, 95, 8⟩, []⟩ (by decide)).2.2.2.2

theorem updateState_error {st : StoreState} {s : State} {ds : List AddressDelta}
    {fs : List Address} {e : StoreError} {st' : StoreState}
    (h : updateState st s ds fs = (Except.error e, st')) : st' = st := by
  unfold updateState runTransaction at h
  cases hb : updateStateBody s ds fs st with
  | ok stb => rw [hb] at h; injection h with h1 h2; cases h1
  | error e' => rw [hb] at h; injection h with h1 h2; exact h2.symm

theorem updateState_ok {st : StoreState} {s : State} {ds : List AddressDelta}
    {fs : List Address} {r st' : StoreState}
    (h : updateState st s ds fs = (Except.ok r, st')) :
    st' = r ∧ st'.global = s ∧
    applyAddressDeltas (insertFoundationAddresses st.rows fs) ds = Except.ok st'.rows := by
  unfold updateState runTransaction at h
  cases hb : updateStateBody s ds fs st with
  | error e' => rw [hb] at h; injection h with h1 h2; cases h1
  | ok stb =>
    rw [hb] at h
    injection h with h1 h2
    injection h1 with h1
    subst h1; subst h2
    unfold updateStateBody at hb
    cases had : applyAddressDeltas (insertFoundationAddresses st.rows fs) ds with
    | error e' => rw [had] at hb; cases hb
    | ok rows' =>
      rw [had] at hb
      injection hb with hb
      subst hb
      exact ⟨rfl, rfl, rfl⟩

theorem processBatch_ok_invariant {rules : Rules} {s : State} {rev : List RevertUpdate}
    {app : List ApplyUpdate} {res : BatchResult}
    (h : processBatch rules s rev app = Except.ok res) :
    res.state.circulatingSupply ≤ res.state.totalSupply := by
  unfold processBatch at h
  cases h1 : revertUpdates rules ⟨s, [], []⟩ rev with
  | error e => simp only [h1] at h; exact Except.noConfusion h
  | ok agg1 =>
    simp only [h1] at h
    cases h2 : applyUpdates rules agg1 app with
    | error e => simp only [h2] at h; exact Except.noConfusion h
    | ok agg2 =>
      simp only [h2] at h
      by_cases hv : agg2.state.totalSupply < agg2.state.circulatingSupply
      · rw [if_pos hv] at h; cases h
      · rw [if_neg hv] at h
        injection h with h
        subst h
        exact Nat.le_of_not_lt hv

theorem commitBatch_ok_invariant {rules : Rules} {store : StoreState}
    {b : List RevertUpdate × List ApplyUpdate} {st' : StoreState}
    (h : commitBatch rules store b = Except.ok st') :
    st'.global.circulatingSupply ≤ st'.global.totalSupply := by
  unfold commitBatch at h
  cases hp : processBatch rules store.global b.1 b.2 with
  | error e => simp only [hp] at h; exact Except.noConfusion h
  | ok res =>
    simp only [hp] at h
    cases hu : updateState store res.state res.deltas res.newFoundationAddresses with
    | mk q st1 =>
      cases q with
      | error e => simp only [hu] at h; exact Except.noConfusion h
      | ok r =>
        simp only [hu] at h
        injection h with h
        subst h
        obtain ⟨-, hg, -⟩ := updateState_ok hu
        rw [hg]
        exact processBatch_ok_invariant hp

theorem runBatches_invariant {rules : Rules} {store : StoreState}
    {bs : List (List RevertUpdate × List ApplyUpdate)} {st' : StoreState}
    (h0 : store.global.circulatingSupply ≤ store.global.totalSupply)
    (h : runBatches rules store bs = Except.ok st') :
    st'.global.circulatingSupply ≤ st'.global.totalSupply := by
  induction bs generalizing store with
  | nil =>
    unfold runBatches at h
    injection h with h
    subst h
    exact h0
  | cons b rest ih =>
    unfold runBatches at h
    cases hc : commitBatch rules store b with
    | error e => simp only [hc] at h; exact Except.noConfusion h
    | ok st1 =>
      simp only [hc] at h
      exact ih (commitBatch_ok_invariant hc) h

/-- C3: the aggregator never hands a state with `totalSupply <
circulatingSupply` to the store (such a batch aborts with a consistency
error instead of being committed or clamped), so starting from a consistent
committed state every state committed by a sequence of batches satisfies
`totalSupply >= circulatingSupply`. -/
theorem c3_supply_invariant :
    (∀ (rules : Rules) (s : State) (rev : List RevertUpdate) (app : List ApplyUpdate)
       (res : BatchResult), processBatch rules s rev app = Except.ok res →
       res.state.circulatingSupply ≤ res.state.totalSupply) ∧
    (∀ (rules : Rules) (store : StoreState)
       (bs : List (List RevertUpdate × List ApplyUpdate)) (st' : StoreState),
       store.global.circulatingSupply ≤ store.global.totalSupply →
       runBatches rules store bs = Except.ok st' →
       st'.global.circulatingSupply ≤ st'.global.totalSupply) :=
  ⟨fun _ _ _ _ _ h => processBatch_ok_invariant h,
   fun _ _ _ _ h0 h => runBatches_invariant h0 h⟩

theorem c3_supply_invariant_witness :
    runBatches (scenarioRules 5) emptyStore [([], [genesisUpdate 7]), ([], [subsidyUpdate 7 5])] =
      Except.ok ⟨[⟨7, 5, true⟩, ⟨0, 0, false⟩], ⟨⟨2, 1⟩, 5, 5, 0⟩⟩ ∧
    (5 : Nat) ≤ 5 := by
  constructor
  · rfl
  · exact c3_supply_invariant.2 (scenarioRules 5) emptyStore
      [([], [genesisUpdate 7]), ([], [subsidyUpdate 7 5])]
      ⟨[⟨7, 5, true⟩, ⟨0, 0, false⟩], ⟨⟨2, 1⟩, 5, 5, 0⟩⟩ (Nat.le_refl 0) rfl

theorem applyAddressDelta_ok {rows : List AddressRow} {d : AddressDelta}
    {rows' : List AddressRow} (h : applyAddressDelta rows d = Except.ok rows') :
    d.outgoing ≤ lookupBalance rows d.address + d.incoming ∧
    rows' = upsertBalance rows d.address (lookupBalance rows d.address + d.incoming - d.outgoing) := by
  unfold applyAddressDelta at h
  cases h1 : cAdd (lookupBalance rows d.address) d.incoming with
  | none => simp only [h1] at h; exact Except.noConfusion h
  | some b1 =>
    simp only [h1] at h
    cases h2 : cSub b1 d.outgoing with
    | none => simp only [h2] at h; exact Except.noConfusion h
    | some b2 =>
      simp only [h2] at h
      injection h with h
      obtain ⟨-, hb1⟩ := cAdd_eq_some.mp h1
      obtain ⟨hle, hb2⟩ := cSub_eq_some.mp h2
      subst hb1
      subst hb2
      exact ⟨hle, h.symm⟩

/-- C4: `Store.UpdateState` runs the foundation upserts, all address-balance
updates (new balance = previous + incoming - outgoing, an unseen address
starting from zero) and the `global_settings` overwrite inside one
transaction; on any failure the whole batch rolls back and a subsequent
`State()` read returns the pre-batch state exactly. -/
theorem c4_commit_all_or_nothing (st : StoreState) (s : State)
    (ds : List AddressDelta) (fs : List Address) :
    (∀ e st', updateState st s ds fs = (Except.error e, st') →
       st' = st ∧ storeStateQuery st' = storeStateQuery st) ∧
    (∀ r st', updateState st s ds fs = (Except.ok r, st') →
       st' = r ∧ storeStateQuery st' = s ∧
       applyAddressDeltas (insertFoundationAddresses st.rows fs) ds = Except.ok st'.rows) ∧
    (∀ (rows : List AddressRow) (d : AddressDelta) (rows' : List AddressRow),
       applyAddressDelta rows d = Except.ok rows' →
       d.outgoing ≤ lookupBalance rows d.address + d.incoming ∧
       rows' = upsertBalance rows d.address
         (lookupBalance rows d.address + d.incoming - d.outgoing)) := by
  refine ⟨?_, ?_, ?_⟩
  · intro e st' h
    have := updateState_error h
    exact ⟨this, by rw [this]⟩
  · intro r st' h
    exact updateState_ok h
  · intro rows d rows' h
    exact applyAddressDelta_ok h

theorem c4_commit_all_or_nothing_witness :
    updateState emptyStore ⟨⟨5, 5⟩, 1, 2, 3⟩ [⟨9, 0, 1⟩] [] =
      (Except.error StoreError.currencyRange, emptyStore) ∧
    updateState emptyStore ⟨⟨5, 5⟩, 1, 2, 3⟩ [⟨9, 4, 1⟩] [] =
      (Except.ok ⟨[⟨9, 3, false⟩], ⟨⟨5, 5⟩, 1, 2, 3⟩⟩, ⟨[⟨9, 3, false⟩], ⟨⟨5, 5⟩, 1, 2, 3⟩⟩) ∧
    emptyStore = emptyStore ∧
    storeStateQuery (⟨[⟨9, 3, false⟩], ⟨⟨5, 5⟩, 1, 2, 3⟩⟩ : StoreState) = ⟨⟨5, 5⟩, 1, 2, 3⟩ := by
  refine ⟨rfl, rfl, ?_, ?_⟩
  · exact ((c4_commit_all_or_nothing emptyStore ⟨⟨5, 5⟩, 1, 2, 3⟩ [⟨9, 0, 1⟩] []).1
      StoreError.currencyRange emptyStore rfl).1
  · exact ((c4_commit_all_or_nothing emptyStore ⟨⟨5, 5⟩, 1, 2, 3⟩ [⟨9, 4, 1⟩] []).2.1
      ⟨[⟨9, 3, false⟩], ⟨⟨5, 5⟩, 1, 2, 3⟩⟩ ⟨[⟨9, 3, false⟩], ⟨⟨5, 5⟩, 1, 2, 3⟩⟩ rfl).2.1

theorem flagged_contains {rows : List AddressRow} {addr : Address}
    (h : isFoundationFlagged rows addr = true) : containsAddress rows addr = true := by
  unfold isFoundationFlagged at h
  unfold containsAddress
  rw [List.any_eq_true] at h ⊢
  obtain ⟨r, hm, hp⟩ := h
  rw [Bool.and_eq_true] at hp
  exact ⟨r, hm, hp.1⟩

theorem map_id_of_not_contains {rows : List AddressRow} {addr : Address}
    (f : AddressRow → AddressRow) (h : containsAddress rows addr = false) :
    rows.map (fun r => if r.address = addr then f r else r) = rows := by
  induction rows with
  | nil => rfl
  | cons r rest ih =>
    unfold containsAddress at h
    rw [List.any_cons, Bool.or_eq_false_iff] at h
    obtain ⟨h1, h2⟩ := h
    rw [List.map_cons]
    rw [if_neg (by simpa using h1)]
    rw [ih h2]

theorem insertFoundationAddress_idem {rows : List AddressRow} {addr : Address}
    (hu : uniqueAddressesB rows = true) (hf : isFoundationFlagged rows addr = true) :
    insertFoundationAddress rows addr = rows := by
  induction rows with
  | nil => simp [isFoundationFlagged] at hf
  | cons r rest ih =>
    unfold uniqueAddressesB at hu
    rw [Bool.and_eq_true, Bool.not_eq_true'] at hu
    obtain ⟨hnc, hur⟩ := hu
    unfold insertFoundationAddress
    rw [if_pos (flagged_contains hf), List.map_cons]
    by_cases hra : r.address = addr
    · have hrestc : containsAddress rest addr = false := by rw [← hra]; exact hnc
      have hrflag : r.isFoundation = true := by
        unfold isFoundationFlagged at hf
        rw [List.any_cons, Bool.or_eq_true] at hf
        cases hf with
        | inl h => rw [Bool.and_eq_true] at h; exact h.2
        | inr h => exact absurd (flagged_contains h) (by rw [hrestc]; exact Bool.false_ne_true)
      have hre : ({ r with isFoundation := true } : AddressRow) = r := by
        obtain ⟨a, b, fl⟩ := r
        rw [show fl = true from hrflag]
      rw [if_pos hra, map_id_of_not_contains _ hrestc, hre]
    · have hfr : isFoundationFlagged rest addr = true := by
        unfold isFoundationFlagged at hf
        rw [List.any_cons, Bool.or_eq_true] at hf
        cases hf with
        | inl h => rw [Bool.and_eq_true] at h; exact absurd (of_decide_eq_true h.1) hra
        | inr h => exact h
      have h2 := ih hur hfr
      unfold insertFoundationAddress at h2
      rw [if_pos (flagged_contains hfr)] at h2
      rw [if_neg hra, h2]

theorem flagged_insertFoundationAddress {rows : List AddressRow} {addr a : Address}
    (h : isFoundationFlagged rows a = true) :
    isFoundationFlagged (insertFoundationAddress rows addr) a = true := by
  unfold isFoundationFlagged at h ⊢
  rw [List.any_eq_true] at h
  obtain ⟨r, hm, hp⟩ := h
  rw [Bool.and_eq_true] at hp
  unfold insertFoundationAddress
  by_cases hc : containsAddress rows addr
  · rw [if_pos hc, List.any_eq_true]
    refine ⟨if r.address = addr then { r with isFoundation := true } else r,
      List.mem_map_of_mem _ hm, ?_⟩
    by_cases hra : r.address = addr
    · rw [if_pos hra, Bool.and_eq_true]
      exact ⟨hp.1, rfl⟩
    · rw [if_neg hra, Bool.and_eq_true]
      exact hp
  · rw [if_neg hc, List.any_eq_true]
    exact ⟨r, List.mem_append_left _ hm, by rw [Bool.and_eq_true]; exact hp⟩

theorem flagged_insertFoundationAddresses {rows : List AddressRow} {a : Address}
    (fs : List Address) (h : isFoundationFlagged rows a = true) :
    isFoundationFlagged (insertFoundationAddresses rows fs) a = true := by
  induction fs generalizing rows with
  | nil => exact h
  | cons addr rest ih => exact ih (flagged_insertFoundationAddress h)

theorem flagged_upsertBalance {rows : List AddressRow} {addr a : Address} {bal : Nat}
    (h : isFoundationFlagged rows a = true) :
    isFoundationFlagged (upsertBalance rows addr bal) a = true := by
  unfold isFoundationFlagged at h ⊢
  rw [List.any_eq_true] at h
  obtain ⟨r, hm, hp⟩ := h
  rw [Bool.and_eq_true] at hp
  unfold upsertBalance
  by_cases hc : containsAddress rows addr
  · rw [if_pos hc, List.any_eq_true]
    refine ⟨if r.address = addr then { r with siacoinBalance := bal } else r,
      List.mem_map_of_mem _ hm, ?_⟩
    by_cases hra : r.address = addr
    · rw [if_pos hra, Bool.and_eq_true]
      exact hp
    · rw [if_neg hra, Bool.and_eq_true]
      exact hp
  · rw [if_neg hc, List.any_eq_true]
    exact ⟨r, List.mem_append_left _ hm, by rw [Bool.and_eq_true]; exact hp⟩

theorem flagged_applyAddressDeltas {rows rows' : List AddressRow} {a : Address}
    {ds : List AddressDelta} (h : applyAddressDeltas rows ds = Except.ok rows')
    (hf : isFoundationFlagged rows a = true) : isFoundationFlagged rows' a = true := by
  induction ds generalizing rows with
  | nil =>
    unfold applyAddressDeltas at h
    injection h with h
    subst h
    exact hf
  | cons d rest ih =>
    unfold applyAddressDeltas at h
    cases hd : applyAddressDelta rows d with
    | error e => simp only [hd] at h; exact Except.noConfusion h
    | ok rows1 =>
      simp only [hd] at h
      obtain ⟨-, hup⟩ := applyAddressDelta_ok hd
      subst hup
      exact ih h (flagged_upsertBalance hf)

theorem addFoundationBalances_sum {l : List AddressRow} {v t : Nat}
    (h : addFoundationBalances v l = some t) :
    t = v + (l.map (fun r => r.siacoinBalance)).sum := by
  induction l generalizing v with
  | nil =>
    unfold addFoundationBalances at h
    injection h with h
    simp [h]
  | cons r rest ih =>
    unfold addFoundationBalances at h
    cases hc : cAdd v r.siacoinBalance with
    | none => simp only [hc] at h; exact Option.noConfusion h
    | some v' =>
      simp only [hc] at h
      obtain ⟨-, hv⟩ := cAdd_eq_some.mp hc
      subst hv
      rw [ih h, List.map_cons, List.sum_cons]
      omega

/-- C9: treasury status is append-only: re-registering an already flagged
address is the identity (not an error), no committed batch ever clears the
flag of a flagged address (balance updates only touch `siacoin_balance`),
and `FoundationTreasury` returns the sum of the balances of all flagged
addresses. -/
theorem c9_foundation_append_only :
    (∀ (rows : List AddressRow) (addr : Address),
       uniqueAddressesB rows = true → isFoundationFlagged rows addr = true →
       insertFoundationAddress rows addr = rows) ∧
    (∀ (st : StoreState) (s : State) (ds : List AddressDelta) (fs : List Address)
       (r st' : StoreState) (a : Address),
       updateState st s ds fs = (Except.ok r, st') →
       isFoundationFlagged st.rows a = true → isFoundationFlagged st'.rows a = true) ∧
    (∀ (st : StoreState) (t : Nat), foundationTreasury st = some t →
       t = sumFoundationBalances st.rows) := by
  refine ⟨?_, ?_, ?_⟩
  · intro rows addr hu hf
    exact insertFoundationAddress_idem hu hf
  · intro st s ds fs r st' a h hf
    obtain ⟨-, -, hd⟩ := updateState_ok h
    exact flagged_applyAddressDeltas hd (flagged_insertFoundationAddresses fs hf)
  · intro st t h
    unfold foundationTreasury at h
    have := addFoundationBalances_sum h
    simpa [sumFoundationBalances] using this

theorem c9_foundation_append_only_witness :
    insertFoundationAddress [⟨7, 5, true⟩] 7 = [⟨7, 5, true⟩] ∧
    isFoundationFlagged
      (⟨[⟨7, 6, true⟩], ⟨⟨3, 2⟩, 1, 1, 0⟩⟩ : StoreState).rows 7 = true ∧
    (6 : Nat) = sumFoundationBalances [⟨7, 6, true⟩] := by
  refine ⟨?_, ?_, ?_⟩
  · exact c9_foundation_append_only.1 [⟨7, 5, true⟩] 7 rfl rfl
  · exact c9_foundation_append_only.2.1 ⟨[⟨7, 1, true⟩], ⟨⟨0, 0⟩, 0, 0, 0⟩⟩ ⟨⟨3, 2⟩, 1, 1, 0⟩
      [⟨7, 5, 0⟩] [] ⟨[⟨7, 6, true⟩], ⟨⟨3, 2⟩, 1, 1, 0⟩⟩ ⟨[⟨7, 6, true⟩], ⟨⟨3, 2⟩, 1, 1, 0⟩⟩ 7
      rfl rfl
  · exact c9_foundation_append_only.2.2 ⟨[⟨7, 6, true⟩], ⟨⟨3, 2⟩, 1, 1, 0⟩⟩ 6 rfl

theorem scanTxnArbData_error {addrs : List Address} {arbs : List (List Nat)} {e : AggError}
    (h : scanTxnArbData addrs arbs = Except.error e) : e = AggError.decodeFailure := by
  induction arbs generalizing addrs with
  | nil => unfold scanTxnArbData at h; exact Except.noConfusion h
  | cons arb rest ih =>
    unfold scanTxnArbData at h
    by_cases hs : hasFoundationSpecifier arb = true
    · rw [if_pos hs] at h
      cases hd : decodeFoundationAddressUpdate (arb.drop 16) with
      | none => simp only [hd] at h; injection h with h; exact h.symm
      | some u => simp only [hd] at h; exact ih h
    · rw [if_neg hs] at h; exact ih h

theorem scanTxnArbData_malformed {arbs : List (List Nat)} {arb : List Nat}
    (hm : arb ∈ arbs) (hsp : hasFoundationSpecifier arb = true)
    (hdec : decodeFoundationAddressUpdate (arb.drop 16) = none) :
    ∀ addrs, scanTxnArbData addrs arbs = Except.error AggError.decodeFailure := by
  induction arbs with
  | nil => cases hm
  | cons a rest ih =>
    intro addrs
    unfold scanTxnArbData
    rcases List.mem_cons.mp hm with h | h
    · subst h
      rw [if_pos hsp]
      simp only [hdec]
    · by_cases hs : hasFoundationSpecifier a = true
      · rw [if_pos hs]
        cases hd : decodeFoundationAddressUpdate (a.drop 16) with
        | none => simp only [hd]
        | some u => simp only [hd]; exact ih h _
      · rw [if_neg hs]; exact ih h _

theorem scanTransactions_malformed {txns : List Transaction} {txn : Transaction}
    {arb : List Nat} (hm : txn ∈ txns) (harb : arb ∈ txn.arbitraryData)
    (hsp : hasFoundationSpecifier arb = true)
    (hdec : decodeFoundationAddressUpdate (arb.drop 16) = none) :
    ∀ addrs, scanTransactions addrs txns = Except.error AggError.decodeFailure := by
  induction txns with
  | nil => cases hm
  | cons t rest ih =>
    intro addrs
    unfold scanTransactions
    rcases List.mem_cons.mp hm with h | h
    · subst h
      simp only [scanTxnArbData_malformed harb hsp hdec addrs]
    · cases hs : scanTxnArbData addrs t.arbitraryData with
      | ok addrs' => simp only [hs]; exact ih h _
      | error e => simp only [hs]; rw [scanTxnArbData_error hs]

theorem applyUpdateState_ok_scan {rules : Rules} {agg : Agg} {cau : ApplyUpdate} {agg' : Agg}
    (h : applyUpdateState rules agg cau = Except.ok agg') :
    ∃ addrs res, scanTransactions addrs cau.block.transactions = Except.ok res := by
  unfold applyUpdateState at h
  cases h1 : applyRewardOrGenesis rules agg cau with
  | error e => simp only [h1] at h; exact Except.noConfusion h
  | ok agg1 =>
    simp only [h1] at h
    cases h2 : applySiacoinElements ⟨agg1.state, agg1.deltas⟩ cau.siacoinElements with
    | none => simp only [h2] at h; exact Except.noConfusion h
    | some acc =>
      simp only [h2] at h
      cases h3 : applyV2FileContractElements acc.state cau.v2FileContractElements with
      | none => simp only [h3] at h; exact Except.noConfusion h
      | some st =>
        simp only [h3] at h
        cases h4 : scanTransactions agg1.newFoundationAddresses cau.block.transactions with
        | error e => simp only [h4] at h; exact Except.noConfusion h
        | ok addrs => exact ⟨_, _, h4⟩

theorem applyUpdates_ok_mem {rules : Rules} {agg : Agg} {l : List ApplyUpdate} {agg' : Agg}
    (h : applyUpdates rules agg l = Except.ok agg') {u : ApplyUpdate} (hm : u ∈ l) :
    ∃ agg0 agg1, applyUpdateState rules agg0 u = Except.ok agg1 := by
  induction l generalizing agg with
  | nil => cases hm
  | cons v rest ih =>
    unfold applyUpdates at h
    cases h1 : applyUpdateState rules agg v with
    | error e => simp only [h1] at h; exact Except.noConfusion h
    | ok agg1 =>
      simp only [h1] at h
      rcases List.mem_cons.mp hm with hv | hv
      · subst hv; exact ⟨agg, agg1, h1⟩
      · exact ih h hv

theorem processBatch_malformed {rules : Rules} {s : State} {rev : List RevertUpdate}
    {app : List ApplyUpdate} {au : ApplyUpdate} {txn : Transaction} {arb : List Nat}
    (hau : au ∈ app) (htxn : txn ∈ au.block.transactions) (harb : arb ∈ txn.arbitraryData)
    (hsp : hasFoundationSpecifier arb = true)
    (hdec : decodeFoundationAddressUpdate (arb.drop 16) = none) :
    ∀ res, processBatch rules s rev app ≠ Except.ok res := by
  intro res h
  unfold processBatch at h
  cases h1 : revertUpdates rules ⟨s, [], []⟩ rev with
  | error e => simp only [h1] at h; exact Except.noConfusion h
  | ok agg1 =>
    simp only [h1] at h
    cases h2 : applyUpdates rules agg1 app with
    | error e => simp only [h2] at h; exact Except.noConfusion h
    | ok agg2 =>
      obtain ⟨agg0, agg1', hst⟩ := applyUpdates_ok_mem h2 hau
      obtain ⟨addrs, res2, hsc⟩ := applyUpdateState_ok_scan hst
      rw [scanTransactions_malformed htxn harb hsp hdec addrs] at hsc
      exact Except.noConfusion hsc

/-- C6: an applied update carrying a transaction arbitrary-data entry that
begins with the foundation specifier but whose payload fails to decode as a
`FoundationAddressUpdate` makes the aggregator return a hard decode error
(never a skip), so the batch is never handed to `Store.UpdateState` and
nothing from it becomes visible. -/
theorem c6_malformed_foundation_update (rules : Rules) (s : State)
    (rev : List RevertUpdate) (app : List ApplyUpdate) (au : ApplyUpdate)
    (txn : Transaction) (arb : List Nat)
    (hau : au ∈ app) (htxn : txn ∈ au.block.transactions) (harb : arb ∈ txn.arbitraryData)
    (hsp : hasFoundationSpecifier arb = true)
    (hdec : decodeFoundationAddressUpdate (arb.drop 16) = none) :
    (∀ addrs, scanTransactions addrs au.block.transactions =
       Except.error AggError.decodeFailure) ∧
    (∀ res, processBatch rules s rev app ≠ Except.ok res) ∧
    (∀ (store : StoreState) (st' : StoreState),
       store.global = s → commitBatch rules store (rev, app) ≠ Except.ok st') := by
  refine ⟨scanTransactions_malformed htxn harb hsp hdec,
    processBatch_malformed hau htxn harb hsp hdec, ?_⟩
  intro store st' hg h
  unfold commitBatch at h
  cases hp : processBatch rules store.global rev app with
  | error e => simp only [hp] at h; exact Except.noConfusion h
  | ok res =>
    rw [hg] at hp
    exact processBatch_malformed hau htxn harb hsp hdec res hp

theorem c6_malformed_foundation_update_witness :
    scanTransactions [] malformedUpdate.block.transactions =
      Except.error AggError.decodeFailure ∧
    processBatch (scenarioRules 0) ⟨⟨1, 0⟩, 0, 0, 0⟩ [] [malformedUpdate] ≠
      Except.ok ⟨⟨⟨1, 0⟩, 0, 0, 0⟩, [], []⟩ ∧
    commitBatch (scenarioRules 0) ⟨[], ⟨⟨1, 0⟩, 0, 0, 0⟩⟩ ([], [malformedUpdate]) ≠
      Except.ok ⟨[], ⟨⟨1, 0⟩, 0, 0, 0⟩⟩ := by
  have h := c6_malformed_foundation_update (scenarioRules 0) ⟨⟨1, 0⟩, 0, 0, 0⟩ []
    [malformedUpdate] malformedUpdate ⟨[], [malformedArb]⟩ malformedArb
    (by simp) (by simp [malformedUpdate]) (by simp) (by decide) (by decide)
  exact ⟨h.1 [], h.2.1 ⟨⟨⟨1, 0⟩, 0, 0, 0⟩, [], []⟩, h.2.2 ⟨[], ⟨⟨1, 0⟩, 0, 0, 0⟩⟩
    ⟨[], ⟨⟨1, 0⟩, 0, 0, 0⟩⟩ rfl⟩

theorem incrementAddressDelta_unique {m m' : List AddressDelta} {addr : Address} {i o : Nat}
    (h : incrementAddressDelta m addr i o = some m')
    (hu : uniqueDeltaAddressesB m = true) :
    uniqueDeltaAddressesB m' = true ∧
    ∀ a, containsDelta m' a = true ↔ (containsDelta m a = true ∨ addr = a) := by
  induction m generalizing m' with
  | nil =>
    unfold incrementAddressDelta at h
    cases hi : cAdd 0 i with
    | none => simp only [hi] at h; exact Option.noConfusion h
    | some i' =>
      cases ho : cAdd 0 o with
      | none => simp only [hi, ho] at h; exact Option.noConfusion h
      | some o' =>
        simp only [hi, ho] at h
        injection h with h
        subst h
        refine ⟨rfl, ?_⟩
        intro a
        simp [containsDelta, eq_comm]
  | cons d rest ih =>
    unfold uniqueDeltaAddressesB at hu
    rw [Bool.and_eq_true, Bool.not_eq_true'] at hu
    obtain ⟨hnc, hur⟩ := hu
    unfold incrementAddressDelta at h
    by_cases hda : d.address = addr
    · rw [if_pos hda] at h
      cases hi : cAdd d.incoming i with
      | none => simp only [hi] at h; exact Option.noConfusion h
      | some i' =>
        cases ho : cAdd d.outgoing o with
        | none => simp only [hi, ho] at h; exact Option.noConfusion h
        | some o' =>
          simp only [hi, ho] at h
          injection h with h
          subst h
          constructor
          · unfold uniqueDeltaAddressesB
            rw [Bool.and_eq_true, Bool.not_eq_true']
            refine ⟨?_, hur⟩
            show containsDelta rest addr = false
            rw [← hda]
            exact hnc
          · intro a
            subst hda
            simp only [containsDelta, List.any_cons, Bool.or_eq_true, decide_eq_true_eq]
            tauto
    · rw [if_neg hda] at h
      cases hr : incrementAddressDelta rest addr i o with
      | none => simp only [hr] at h; exact Option.noConfusion h
      | some rest' =>
        simp only [hr] at h
        injection h with h
        subst h
        obtain ⟨hu', hc'⟩ := ih hr hur
        constructor
        · unfold uniqueDeltaAddressesB
          rw [Bool.and_eq_true, Bool.not_eq_true']
          refine ⟨?_, hu'⟩
          show containsDelta rest' d.address = false
          rw [← Bool.not_eq_true]
          intro hcc
          rcases (hc' d.address).mp hcc with hcc' | hcc'
          · rw [hnc] at hcc'; exact Bool.false_ne_true hcc'
          · exact hda hcc'.symm
        · intro a
          have hca := hc' a
          simp only [containsDelta] at hca ⊢
          simp only [List.any_cons, Bool.or_eq_true, decide_eq_true_eq] at hca ⊢
          tauto

theorem applySiacoinElement_unique {acc acc' : ElemAcc} {e : SiacoinElementDiff}
    (h : applySiacoinElement acc e = some acc')
    (hu : uniqueDeltaAddressesB acc.deltas = true) :
    uniqueDeltaAddressesB acc'.deltas = true := by
  unfold applySiacoinElement at h
  by_cases hcs : (e.created && e.spent) = true
  · rw [if_pos hcs] at h; injection h with h; subst h; exact hu
  · rw [if_neg hcs] at h
    by_cases hv : e.siacoinOutput.address = VoidAddress
    · rw [if_pos hv] at h
      cases h1 : cAdd acc.state.burnedSupply e.siacoinOutput.value with
      | none => simp only [h1] at h; exact Option.noConfusion h
      | some b =>
        cases h2 : cSub acc.state.totalSupply e.siacoinOutput.value with
        | none => simp only [h1, h2] at h; exact Option.noConfusion h
        | some t =>
          simp only [h1, h2] at h
          injection h with h
          subst h
          exact hu
    · rw [if_neg hv] at h
      by_cases hc : e.created = true
      · rw [if_pos hc] at h
        cases h1 : incrementAddressDelta acc.deltas e.siacoinOutput.address
            e.siacoinOutput.value 0 with
        | none => simp only [h1] at h; exact Option.noConfusion h
        | some ds =>
          cases h2 : cAdd acc.state.circulatingSupply e.siacoinOutput.value with
          | none => simp only [h1, h2] at h; exact Option.noConfusion h
          | some c =>
            simp only [h1, h2] at h
            injection h with h
            subst h
            exact (incrementAddressDelta_unique h1 hu).1
      · rw [if_neg hc] at h
        by_cases hs : e.spent = true
        · rw [if_pos hs] at h
          cases h1 : incrementAddressDelta acc.deltas e.siacoinOutput.address 0
              e.siacoinOutput.value with
          | none => simp only [h1] at h; exact Option.noConfusion h
          | some ds =>
            cases h2 : cSub acc.state.circulatingSupply e.siacoinOutput.value with
            | none => simp only [h1, h2] at h; exact Option.noConfusion h
            | some c =>
              simp only [h1, h2] at h
              injection h with h
              subst h
              exact (incrementAddressDelta_unique h1 hu).1
        · rw [if_neg hs] at h; injection h with h; subst h; exact hu

theorem revertSiacoinElement_unique {acc acc' : ElemAcc} {e : SiacoinElementDiff}
    (h : revertSiacoinElement acc e = some acc')
    (hu : uniqueDeltaAddressesB acc.deltas = true) :
    uniqueDeltaAddressesB acc'.deltas = true := by
  unfold revertSiacoinElement at h
  by_cases hcs : (e.created && e.spent) = true
  · rw [if_pos hcs] at h; injection h with h; subst h; exact hu
  · rw [if_neg hcs] at h
    by_cases hv : e.siacoinOutput.address = VoidAddress
    · rw [if_pos hv] at h
      cases h1 : cAdd acc.state.totalSupply e.siacoinOutput.value with
      | none => simp only [h1] at h; exact Option.noConfusion h
      | some t =>
        cases h2 : cSub acc.state.burnedSupply e.siacoinOutput.value with
        | none => simp only [h1, h2] at h; exact Option.noConfusion h
        | some b =>
          simp only [h1, h2] at h
          injection h with h
          subst h
          exact hu
    · rw [if_neg hv] at h
      by_cases hc : e.created = true
      · rw [if_pos hc] at h
        cases h1 : incrementAddressDelta acc.deltas e.siacoinOutput.address 0
            e.siacoinOutput.value with
        | none => simp only [h1] at h; exact Option.noConfusion h
        | some ds =>
          cases h2 : cSub acc.state.circulatingSupply e.siacoinOutput.value with
          | none => simp only [h1, h2] at h; exact Option.noConfusion h
          | some c =>
            simp only [h1, h2] at h
            injection h with h
            subst h
            exact (incrementAddressDelta_unique h1 hu).1
      · rw [if_neg hc] at h
        by_cases hs : e.spent = true
        · rw [if_pos hs] at h
          cases h1 : incrementAddressDelta acc.deltas e.siacoinOutput.address
              e.siacoinOutput.value 0 with
          | none => simp only [h1] at h; exact Option.noConfusion h
          | some ds =>
            cases h2 : cAdd acc.state.circulatingSupply e.siacoinOutput.value with
            | none => simp only [h1, h2] at h; exact Option.noConfusion h
            | some c =>
              simp only [h1, h2] at h
              injection h with h
              subst h
              exact (incrementAddressDelta_unique h1 hu).1
        · rw [if_neg hs] at h; injection h with h; subst h; exact hu

theorem applySiacoinElements_unique {els : List SiacoinElementDiff} :
    ∀ {acc acc' : ElemAcc}, applySiacoinElements acc els = some acc' →
    uniqueDeltaAddressesB acc.deltas = true → uniqueDeltaAddressesB acc'.deltas = true := by
  induction els with
  | nil =>
    intro acc acc' h hu
    unfold applySiacoinElements at h
    injection h with h
    subst h
    exact hu
  | cons e rest ih =>
    intro acc acc' h hu
    unfold applySiacoinElements at h
    cases h1 : applySiacoinElement acc e with
    | none => simp only [h1] at h; exact Option.noConfusion h
    | some acc1 =>
      simp only [h1] at h
      exact ih h (applySiacoinElement_unique h1 hu)

theorem revertSiacoinElements_unique {els : List SiacoinElementDiff} :
    ∀ {acc acc' : ElemAcc}, revertSiacoinElements acc els = some acc' →
    uniqueDeltaAddressesB acc.deltas = true → uniqueDeltaAddressesB acc'.deltas = true := by
  induction els with
  | nil =>
    intro acc acc' h hu
    unfold revertSiacoinElements at h
    injection h with h
    subst h
    exact hu
  | cons e rest ih =>
    intro acc acc' h hu
    unfold revertSiacoinElements at h
    cases h1 : revertSiacoinElement acc e with
    | none => simp only [h1] at h; exact Option.noConfusion h
    | some acc1 =>
      simp only [h1] at h
      exact ih h (revertSiacoinElement_unique h1 hu)

theorem applyRewardOrGenesis_deltas {rules : Rules} {agg : Agg} {cau : ApplyUpdate} {agg1 : Agg}
    (h : applyRewardOrGenesis rules agg cau = Except.ok agg1) : agg1.deltas = agg.deltas := by
  unfold applyRewardOrGenesis at h
  by_cases hh : cau.state.index.height = 0
  · rw [if_pos hh] at h
    cases h1 : addGenesisOutputs agg.state.totalSupply cau.block.transactions with
    | none => simp only [h1] at h; exact Except.noConfusion h
    | some total =>
      simp only [h1] at h
      by_cases hv : cau.state.foundationManagementAddress = VoidAddress
      · rw [if_pos hv] at h; exact Except.noConfusion h
      · rw [if_neg hv] at h; injection h with h; subst h; rfl
  · rw [if_neg hh] at h
    cases h1 : cAdd agg.state.totalSupply
        (rules.blockRewardValue (cau.state.index.height - 1)) with
    | none => simp only [h1] at h; exact Except.noConfusion h
    | some total =>
      simp only [h1] at h
      cases h2 : rules.foundationSubsidyValue (cau.state.index.height - 1) with
      | none => simp only [h2] at h; injection h with h; subst h; rfl
      | some v =>
        simp only [h2] at h
        cases h3 : cAdd total v with
        | none => simp only [h3] at h; exact Except.noConfusion h
        | some total' => simp only [h3] at h; injection h with h; subst h; rfl

theorem applyUpdateState_unique {rules : Rules} {agg agg' : Agg} {cau : ApplyUpdate}
    (h : applyUpdateState rules agg cau = Except.ok agg')
    (hu : uniqueDeltaAddressesB agg.deltas = true) :
    uniqueDeltaAddressesB agg'.deltas = true := by
  unfold applyUpdateState at h
  cases h1 : applyRewardOrGenesis rules agg cau with
  | error e => simp only [h1] at h; exact Except.noConfusion h
  | ok agg1 =>
    simp only [h1] at h
    cases h2 : applySiacoinElements ⟨agg1.state, agg1.deltas⟩ cau.siacoinElements with
    | none => simp only [h2] at h; exact Except.noConfusion h
    | some acc =>
      simp only [h2] at h
      cases h3 : applyV2FileContractElements acc.state cau.v2FileContractElements with
      | none => simp only [h3] at h; exact Except.noConfusion h
      | some st =>
        simp only [h3] at h
        cases h4 : scanTransactions agg1.newFoundationAddresses cau.block.transactions with
        | error e => simp only [h4] at h; exact Except.noConfusion h
        | ok addrs =>
          simp only [h4] at h
          injection h with h
          subst h
          have : uniqueDeltaAddressesB (ElemAcc.mk agg1.state agg1.deltas).deltas = true := by
            rw [applyRewardOrGenesis_deltas h1]; exact hu
          exact applySiacoinElements_unique h2 this

theorem revertUpdateState_unique {rules : Rules} {agg agg' : Agg} {cru : RevertUpdate}
    (h : revertUpdateState rules agg cru = Except.ok agg')
    (hu : uniqueDeltaAddressesB agg.deltas = true) :
    uniqueDeltaAddressesB agg'.deltas = true := by
  unfold revertUpdateState at h
  cases h1 : cSub agg.state.totalSupply (rules.blockRewardValue cru.state.index.height) with
  | none => simp only [h1] at h; exact Except.noConfusion h
  | some total =>
    simp only [h1] at h
    cases h2 :
        (match rules.foundationSubsidyValue cru.state.index.height with
         | none => some total
         | some v => cSub total v) with
    | none => simp only [h2] at h; exact Except.noConfusion h
    | some total' =>
      simp only [h2] at h
      cases h3 : revertSiacoinElements
          ⟨{ agg.state with totalSupply := total' }, agg.deltas⟩ cru.siacoinElements with
      | none => simp only [h3] at h; exact Except.noConfusion h
      | some acc =>
        simp only [h3] at h
        cases h4 : revertV2FileContractElements acc.state cru.v2FileContractElements with
        | none => simp only [h4] at h; exact Except.noConfusion h
        | some st =>
          simp only [h4] at h
          injection h with h
          subst h
          exact revertSiacoinElements_unique h3 hu

theorem revertUpdates_unique {rules : Rules} {l : List RevertUpdate} :
    ∀ {agg agg' : Agg}, revertUpdates rules agg l = Except.ok agg' →
    uniqueDeltaAddressesB agg.deltas = true → uniqueDeltaAddressesB agg'.deltas = true := by
  induction l with
  | nil =>
    intro agg agg' h hu
    unfold revertUpdates at h
    injection h with h
    subst h
    exact hu
  | cons u rest ih =>
    intro agg agg' h hu
    unfold revertUpdates at h
    cases h1 : revertUpdateState rules agg u with
    | error e => simp only [h1] at h; exact Except.noConfusion h
    | ok agg1 =>
      simp only [h1] at h
      exact ih h (revertUpdateState_unique h1 hu)

theorem applyUpdates_unique {rules : Rules} {l : List ApplyUpdate} :
    ∀ {agg agg' : Agg}, applyUpdates rules agg l = Except.ok agg' →
    uniqueDeltaAddressesB agg.deltas = true → uniqueDeltaAddressesB agg'.deltas = true := by
  induction l with
  | nil =>
    intro agg agg' h hu
    unfold applyUpdates at h
    injection h with h
    subst h
    exact hu
  | cons u rest ih =>
    intro agg agg' h hu
    unfold applyUpdates at h
    cases h1 : applyUpdateState rules agg u with
    | error e => simp only [h1] at h; exact Except.noConfusion h
    | ok agg1 =>
      simp only [h1] at h
      exact ih h (applyUpdateState_unique h1 hu)

theorem upsertBalance_contains {rows : List AddressRow} {addr : Address} {bal : Nat} :
    containsAddress (upsertBalance rows addr bal) addr = true ∧
    ∀ a, containsAddress rows a = true → containsAddress (upsertBalance rows addr bal) a = true := by
  unfold upsertBalance
  by_cases hc : containsAddress rows addr = true
  · rw [if_pos hc]
    constructor
    · unfold containsAddress at hc ⊢
      rw [List.any_eq_true] at hc ⊢
      obtain ⟨r, hm, hp⟩ := hc
      refine ⟨if r.address = addr then { r with siacoinBalance := bal } else r,
        List.mem_map_of_mem _ hm, ?_⟩
      rw [if_pos (of_decide_eq_true hp)]
      simpa using of_decide_eq_true hp
    · intro a ha
      unfold containsAddress at ha ⊢
      rw [List.any_eq_true] at ha ⊢
      obtain ⟨r, hm, hp⟩ := ha
      refine ⟨if r.address = addr then { r with siacoinBalance := bal } else r,
        List.mem_map_of_mem _ hm, ?_⟩
      by_cases hra : r.address = addr
      · rw [if_pos hra]; simpa [hra] using hp
      · rw [if_neg hra]; exact hp
  · rw [if_neg hc]
    constructor
    · unfold containsAddress
      rw [List.any_eq_true]
      exact ⟨⟨addr, bal, false⟩, List.mem_append_right _ (List.mem_singleton.mpr rfl), by simp⟩
    · intro a ha
      unfold containsAddress at ha ⊢
      rw [List.any_eq_true] at ha ⊢
      obtain ⟨r, hm, hp⟩ := ha
      exact ⟨r, List.mem_append_left _ hm, hp⟩

theorem applyAddressDeltas_contains_mono {ds : List AddressDelta} :
    ∀ {rows rows' : List AddressRow}, applyAddressDeltas rows ds = Except.ok rows' →
    ∀ a, containsAddress rows a = true → containsAddress rows' a = true := by
  induction ds with
  | nil =>
    intro rows rows' h a ha
    unfold applyAddressDeltas at h
    injection h with h
    subst h
    exact ha
  | cons d rest ih =>
    intro rows rows' h a ha
    unfold applyAddressDeltas at h
    cases h1 : applyAddressDelta rows d with
    | error e => simp only [h1] at h; exact Except.noConfusion h
    | ok rows1 =>
      simp only [h1] at h
      obtain ⟨-, hup⟩ := applyAddressDelta_ok h1
      subst hup
      exact ih h a (upsertBalance_contains.2 a ha)

theorem applyAddressDeltas_head_contains {rows rows' : List AddressRow} {d : AddressDelta}
    {ds : List AddressDelta} (h : applyAddressDeltas rows (d :: ds) = Except.ok rows') :
    containsAddress rows' d.address = true := by
  unfold applyAddressDeltas at h
  cases h1 : applyAddressDelta rows d with
  | error e => simp only [h1] at h; exact Except.noConfusion h
  | ok rows1 =>
    simp only [h1] at h
    obtain ⟨-, hup⟩ := applyAddressDelta_ok h1
    subst hup
    exact applyAddressDeltas_contains_mono h d.address upsertBalance_contains.1

/-- C10: a batch whose aggregation touches `n >= 1` distinct addresses hands
the store a delta slice of length `2 n`: the `n` zero-valued entries the
`make([]AddressDelta, n)` pre-allocation left in place (all-zero address,
zero incoming, zero outgoing) followed by the `n` real map entries (whose
addresses are pairwise distinct); committing such a slice also creates or
updates a balance row for the all-zero (void) address. -/
theorem c10_delta_padding (rules : Rules) (s0 : State) (rev : List RevertUpdate)
    (app : List ApplyUpdate) (res : BatchResult)
    (h : processBatch rules s0 rev app = Except.ok res) :
    (∃ ds, res.deltas = List.replicate ds.length defaultAddressDelta ++ ds ∧
       res.deltas.length = 2 * ds.length ∧ uniqueDeltaAddressesB ds = true) ∧
    (res.deltas ≠ [] →
      ∀ (store r st' : StoreState),
        updateState store res.state res.deltas res.newFoundationAddresses = (Except.ok r, st') →
        containsAddress st'.rows VoidAddress = true) := by
  have hds : ∃ ds, res.deltas = List.replicate ds.length defaultAddressDelta ++ ds ∧
      uniqueDeltaAddressesB ds = true := by
    unfold processBatch at h
    cases h1 : revertUpdates rules ⟨s0, [], []⟩ rev with
    | error e => simp only [h1] at h; exact Except.noConfusion h
    | ok agg1 =>
      simp only [h1] at h
      cases h2 : applyUpdates rules agg1 app with
      | error e => simp only [h2] at h; exact Except.noConfusion h
      | ok agg2 =>
        simp only [h2] at h
        by_cases hv : agg2.state.totalSupply < agg2.state.circulatingSupply
        · rw [if_pos hv] at h; exact Except.noConfusion h
        · rw [if_neg hv] at h
          injection h with h
          subst h
          refine ⟨agg2.deltas, rfl, ?_⟩
          exact applyUpdates_unique h2 (revertUpdates_unique h1 rfl)
  obtain ⟨ds, hrep, hu⟩ := hds
  constructor
  · exact ⟨ds, hrep, by rw [hrep]; simp [Nat.two_mul], hu⟩
  · intro hne store r st' hup
    obtain ⟨-, -, hda⟩ := updateState_ok hup
    cases hd : ds with
    | nil => rw [hd] at hrep; simp [hd] at hrep; rw [hrep] at hne; exact absurd rfl hne
    | cons d0 dtail =>
      rw [hd] at hrep
      have : res.deltas = defaultAddressDelta ::
          (List.replicate dtail.length defaultAddressDelta ++ (d0 :: dtail)) := by
        rw [hrep]
        simp [List.replicate_succ]
      rw [this] at hda
      exact applyAddressDeltas_head_contains hda

theorem c10_delta_padding_witness :
    processBatch (scenarioRules 5) ⟨⟨1, 0⟩, 0, 0, 0⟩ [] [subsidyUpdate 7 5] =
      Except.ok ⟨⟨⟨2, 1⟩, 5, 5, 0⟩, [⟨0, 0, 0⟩, ⟨7, 5, 0⟩], []⟩ ∧
    ([⟨0, 0, 0⟩, ⟨7, 5, 0⟩] : List AddressDelta).length = 2 * 1 ∧
    containsAddress
      (updateState ⟨[⟨7, 0, true⟩], ⟨⟨1, 0⟩, 0, 0, 0⟩⟩ ⟨⟨2, 1⟩, 5, 5, 0⟩
        [⟨0, 0, 0⟩, ⟨7, 5, 0⟩] []).2.rows VoidAddress = true := by
  refine ⟨rfl, rfl, ?_⟩
  exact (c10_delta_padding (scenarioRules 5) ⟨⟨1, 0⟩, 0, 0, 0⟩ [] [subsidyUpdate 7 5]
      ⟨⟨⟨2, 1⟩, 5, 5, 0⟩, [⟨0, 0, 0⟩, ⟨7, 5, 0⟩], []⟩ rfl).2 (by decide)
    ⟨[⟨7, 0, true⟩], ⟨⟨1, 0⟩, 0, 0, 0⟩⟩
    ⟨[⟨7, 5, true⟩, ⟨0, 0, false⟩], ⟨⟨2, 1⟩, 5, 5, 0⟩⟩
    ⟨[⟨7, 5, true⟩, ⟨0, 0, false⟩], ⟨⟨2, 1⟩, 5, 5, 0⟩⟩ rfl

theorem deltaIncoming_nil {a : Address} : deltaIncoming [] a = 0 := rfl

theorem deltaOutgoing_nil {a : Address} : deltaOutgoing [] a = 0 := rfl

theorem deltaIncoming_cons {d : AddressDelta} {ds : List AddressDelta} {a : Address} :
    deltaIncoming (d :: ds) a = if d.address = a then d.incoming else deltaIncoming ds a := by
  unfold deltaIncoming
  by_cases h : d.address = a
  · simp [List.find?, h]
  · simp [List.find?, h]

theorem deltaOutgoing_cons {d : AddressDelta} {ds : List AddressDelta} {a : Address} :
    deltaOutgoing (d :: ds) a = if d.address = a then d.outgoing else deltaOutgoing ds a := by
  unfold deltaOutgoing
  by_cases h : d.address = a
  · simp [List.find?, h]
  · simp [List.find?, h]

theorem incrementAddressDelta_lookup {m m' : List AddressDelta} {addr : Address} {i o : Nat}
    (h : incrementAddressDelta m addr i o = some m') (a : Address) :
    deltaIncoming m' a = deltaIncoming m a + (if addr = a then i else 0) ∧
    deltaOutgoing m' a = deltaOutgoing m a + (if addr = a then o else 0) := by
  induction m generalizing m' with
  | nil =>
    unfold incrementAddressDelta at h
    cases hi : cAdd 0 i with
    | none => simp only [hi] at h; exact Option.noConfusion h
    | some i' =>
      cases ho : cAdd 0 o with
      | none => simp only [hi, ho] at h; exact Option.noConfusion h
      | some o' =>
        simp only [hi, ho] at h
        injection h with h
        subst h
        obtain ⟨-, hie⟩ := cAdd_eq_some.mp hi
        obtain ⟨-, hoe⟩ := cAdd_eq_some.mp ho
        rw [deltaIncoming_cons, deltaOutgoing_cons, deltaIncoming_nil, deltaOutgoing_nil]
        dsimp only
        split_ifs with h1
        · exact ⟨by omega, by omega⟩
        · exact ⟨by omega, by omega⟩
  | cons d rest ih =>
    unfold incrementAddressDelta at h
    by_cases hda : d.address = addr
    · rw [if_pos hda] at h
      cases hi : cAdd d.incoming i with
      | none => simp only [hi] at h; exact Option.noConfusion h
      | some i' =>
        cases ho : cAdd d.outgoing o with
        | none => simp only [hi, ho] at h; exact Option.noConfusion h
        | some o' =>
          simp only [hi, ho] at h
          injection h with h
          subst h
          obtain ⟨-, hie⟩ := cAdd_eq_some.mp hi
          obtain ⟨-, hoe⟩ := cAdd_eq_some.mp ho
          rw [deltaIncoming_cons, deltaIncoming_cons, deltaOutgoing_cons, deltaOutgoing_cons]
          dsimp only
          rw [hda]
          split_ifs with h1
          · exact ⟨by omega, by omega⟩
          · exact ⟨by omega, by omega⟩
    · rw [if_neg hda] at h
      cases hr : incrementAddressDelta rest addr i o with
      | none => simp only [hr] at h; exact Option.noConfusion h
      | some rest' =>
        simp only [hr] at h
        injection h with h
        subst h
        obtain ⟨hin, hout⟩ := ih hr
        rw [deltaIncoming_cons, deltaIncoming_cons, deltaOutgoing_cons, deltaOutgoing_cons]
        by_cases hd2 : d.address = a
        · have ha : ¬addr = a := fun hc => hda (hd2.trans hc.symm)
          simp only [if_pos hd2, if_neg ha]
          exact ⟨by omega, by omega⟩
        · simp only [if_neg hd2]
          exact ⟨hin, hout⟩

theorem applySiacoinElement_spec {acc acc' : ElemAcc} {e : SiacoinElementDiff}
    (h : applySiacoinElement acc e = some acc') :
    acc'.state.index = acc.state.index ∧
    (acc'.state.circulatingSupply : Int) =
      acc.state.circulatingSupply + applyElemCircEffect e ∧
    (acc'.state.burnedSupply : Int) = acc.state.burnedSupply + applyElemBurnEffect e ∧
    (acc'.state.totalSupply : Int) = acc.state.totalSupply + applyElemTotalEffect e ∧
    ∀ a, deltaIncoming acc'.deltas a = deltaIncoming acc.deltas a + applyElemInEffect a e ∧
         deltaOutgoing acc'.deltas a = deltaOutgoing acc.deltas a + applyElemOutEffect a e := by
  unfold applySiacoinElement at h
  by_cases hcs : (e.created && e.spent) = true
  · rw [if_pos hcs] at h
    injection h with h
    subst h
    refine ⟨rfl, ?_, ?_, ?_, ?_⟩
    · simp only [applyElemCircEffect, if_pos hcs]; omega
    · simp only [applyElemBurnEffect, if_pos hcs]; omega
    · simp only [applyElemTotalEffect, if_pos hcs]; omega
    · intro a
      simp only [applyElemInEffect, applyElemOutEffect, if_pos hcs]
      omega
  · rw [if_neg hcs] at h
    by_cases hv : e.siacoinOutput.address = VoidAddress
    · rw [if_pos hv] at h
      cases h1 : cAdd acc.state.burnedSupply e.siacoinOutput.value with
      | none => simp only [h1] at h; exact Option.noConfusion h
      | some b =>
        cases h2 : cSub acc.state.totalSupply e.siacoinOutput.value with
        | none => simp only [h1, h2] at h; exact Option.noConfusion h
        | some t =>
          simp only [h1, h2] at h
          injection h with h
          subst h
          obtain ⟨-, hbe⟩ := cAdd_eq_some.mp h1
          obtain ⟨hle, hte⟩ := cSub_eq_some.mp h2
          refine ⟨rfl, ?_, ?_, ?_, ?_⟩
          · simp only [applyElemCircEffect, if_neg hcs, if_pos hv]; omega
          · simp only [applyElemBurnEffect, if_neg hcs, if_pos hv]; omega
          · simp only [applyElemTotalEffect, if_neg hcs, if_pos hv]; omega
          · intro a
            simp only [applyElemInEffect, applyElemOutEffect, if_neg hcs, if_pos hv]
            omega
    · rw [if_neg hv] at h
      by_cases hc : e.created = true
      · rw [if_pos hc] at h
        cases h1 : incrementAddressDelta acc.deltas e.siacoinOutput.address
            e.siacoinOutput.value 0 with
        | none => simp only [h1] at h; exact Option.noConfusion h
        | some ds =>
          cases h2 : cAdd acc.state.circulatingSupply e.siacoinOutput.value with
          | none => simp only [h1, h2] at h; exact Option.noConfusion h
          | some c =>
            simp only [h1, h2] at h
            injection h with h
            subst h
            obtain ⟨-, hce⟩ := cAdd_eq_some.mp h2
            refine ⟨rfl, ?_, ?_, ?_, ?_⟩
            · simp only [applyElemCircEffect, if_neg hcs, if_neg hv, if_pos hc]; omega
            · simp only [applyElemBurnEffect, if_neg hcs, if_neg hv]; omega
            · simp only [applyElemTotalEffect, if_neg hcs, if_neg hv]; omega
            · intro a
              obtain ⟨hin, hout⟩ := incrementAddressDelta_lookup h1 a
              simp only [applyElemInEffect, applyElemOutEffect, if_neg hcs, if_neg hv, if_pos hc]
              rw [hin, hout]
              constructor
              · rfl
              · split_ifs <;> rfl
      · rw [if_neg hc] at h
        by_cases hs : e.spent = true
        · rw [if_pos hs] at h
          cases h1 : incrementAddressDelta acc.deltas e.siacoinOutput.address 0
              e.siacoinOutput.value with
          | none => simp only [h1] at h; exact Option.noConfusion h
          | some ds =>
            cases h2 : cSub acc.state.circulatingSupply e.siacoinOutput.value with
            | none => simp only [h1, h2] at h; exact Option.noConfusion h
            | some c =>
              simp only [h1, h2] at h
              injection h with h
              subst h
              obtain ⟨hle, hce⟩ := cSub_eq_some.mp h2
              refine ⟨rfl, ?_, ?_, ?_, ?_⟩
              · simp only [applyElemCircEffect, if_neg hcs, if_neg hv, if_neg hc, if_pos hs]; omega
              · simp only [applyElemBurnEffect, if_neg hcs, if_neg hv]; omega
              · simp only [applyElemTotalEffect, if_neg hcs, if_neg hv]; omega
              · intro a
                obtain ⟨hin, hout⟩ := incrementAddressDelta_lookup h1 a
                simp only [applyElemInEffect, applyElemOutEffect, if_neg hcs, if_neg hv,
                  if_neg hc, if_pos hs]
                rw [hin, hout]
                constructor
                · split_ifs <;> rfl
                · rfl
        · rw [if_neg hs] at h
          injection h with h
          subst h
          refine ⟨rfl, ?_, ?_, ?_, ?_⟩
          · simp only [applyElemCircEffect, if_neg hcs, if_neg hv, if_neg hc, if_neg hs]; omega
          · simp only [applyElemBurnEffect, if_neg hcs, if_neg hv]; omega
          · simp only [applyElemTotalEffect, if_neg hcs, if_neg hv]; omega
          · intro a
            simp only [applyElemInEffect, applyElemOutEffect, if_neg hcs, if_neg hv,
              if_neg hc, if_neg hs]
            omega

theorem revertSiacoinElement_spec {acc acc' : ElemAcc} {e : SiacoinElementDiff}
    (h : revertSiacoinElement acc e = some acc') :
    acc'.state.index = acc.state.index ∧
    (acc'.state.circulatingSupply : Int) =
      acc.state.circulatingSupply - applyElemCircEffect e ∧
    (acc'.state.burnedSupply : Int) = acc.state.burnedSupply - applyElemBurnEffect e ∧
    (acc'.state.totalSupply : Int) = acc.state.totalSupply - applyElemTotalEffect e ∧
    ∀ a, deltaIncoming acc'.deltas a = deltaIncoming acc.deltas a + applyElemOutEffect a e ∧
         deltaOutgoing acc'.deltas a = deltaOutgoing acc.deltas a + applyElemInEffect a e := by
  unfold revertSiacoinElement at h
  by_cases hcs : (e.created && e.spent) = true
  · rw [if_pos hcs] at h
    injection h with h
    subst h
    refine ⟨rfl, ?_, ?_, ?_, ?_⟩
    · simp only [applyElemCircEffect, if_pos hcs]; omega
    · simp only [applyElemBurnEffect, if_pos hcs]; omega
    · simp only [applyElemTotalEffect, if_pos hcs]; omega
    · intro a
      simp only [applyElemInEffect, applyElemOutEffect, if_pos hcs]
      omega
  · rw [if_neg hcs] at h
    by_cases hv : e.siacoinOutput.address = VoidAddress
    · rw [if_pos hv] at h
      cases h1 : cAdd acc.state.totalSupply e.siacoinOutput.value with
      | none => simp only [h1] at h; exact Option.noConfusion h
      | some t =>
        cases h2 : cSub acc.state.burnedSupply e.siacoinOutput.value with
        | none => simp only [h1, h2] at h; exact Option.noConfusion h
        | some b =>
          simp only [h1, h2] at h
          injection h with h
          subst h
          obtain ⟨-, hte⟩ := cAdd_eq_some.mp h1
          obtain ⟨hle, hbe⟩ := cSub_eq_some.mp h2
          refine ⟨rfl, ?_, ?_, ?_, ?_⟩
          · simp only [applyElemCircEffect, if_neg hcs, if_pos hv]; omega
          · simp only [applyElemBurnEffect, if_neg hcs, if_pos hv]; omega
          · simp only [applyElemTotalEffect, if_neg hcs, if_pos hv]; omega
          · intro a
            simp only [applyElemInEffect, applyElemOutEffect, if_neg hcs, if_pos hv]
            omega
    · rw [if_neg hv] at h
      by_cases hc : e.created = true
      · rw [if_pos hc] at h
        cases h1 : incrementAddressDelta acc.deltas e.siacoinOutput.address 0
            e.siacoinOutput.value with
        | none => simp only [h1] at h; exact Option.noConfusion h
        | some ds =>
          cases h2 : cSub acc.state.circulatingSupply e.siacoinOutput.value with
          | none => simp only [h1, h2] at h; exact Option.noConfusion h
          | some c =>
            simp only [h1, h2] at h
            injection h with h
            subst h
            obtain ⟨hle, hce⟩ := cSub_eq_some.mp h2
            refine ⟨rfl, ?_, ?_, ?_, ?_⟩
            · simp only [applyElemCircEffect, if_neg hcs, if_neg hv, if_pos hc]; omega
            · simp only [applyElemBurnEffect, if_neg hcs, if_neg hv]; omega
            · simp only [applyElemTotalEffect, if_neg hcs, if_neg hv]; omega
            · intro a
              obtain ⟨hin, hout⟩ := incrementAddressDelta_lookup h1 a
              simp only [applyElemInEffect, applyElemOutEffect, if_neg hcs, if_neg hv, if_pos hc]
              rw [hin, hout]
              constructor
              · split_ifs <;> rfl
              · rfl
      · rw [if_neg hc] at h
        by_cases hs : e.spent = true
        · rw [if_pos hs] at h
          cases h1 : incrementAddressDelta acc.deltas e.siacoinOutput.address
              e.siacoinOutput.value 0 with
          | none => simp only [h1] at h; exact Option.noConfusion h
          | some ds =>
            cases h2 : cAdd acc.state.circulatingSupply e.siacoinOutput.value with
            | none => simp only [h1, h2] at h; exact Option.noConfusion h
            | some c =>
              simp only [h1, h2] at h
              injection h with h
              subst h
              obtain ⟨-, hce⟩ := cAdd_eq_some.mp h2
              refine ⟨rfl, ?_, ?_, ?_, ?_⟩
              · simp only [applyElemCircEffect, if_neg hcs, if_neg hv, if_neg hc, if_pos hs]
                omega
              · simp only [applyElemBurnEffect, if_neg hcs, if_neg hv]; omega
              · simp only [applyElemTotalEffect, if_neg hcs, if_neg hv]; omega
              · intro a
                obtain ⟨hin, hout⟩ := incrementAddressDelta_lookup h1 a
                simp only [applyElemInEffect, applyElemOutEffect, if_neg hcs, if_neg hv,
                  if_neg hc, if_pos hs]
                rw [hin, hout]
                constructor
                · rfl
                · split_ifs <;> rfl
        · rw [if_neg hs] at h
          injection h with h
          subst h
          refine ⟨rfl, ?_, ?_, ?_, ?_⟩
          · simp only [applyElemCircEffect, if_neg hcs, if_neg hv, if_neg hc, if_neg hs]; omega
          · simp only [applyElemBurnEffect, if_neg hcs, if_neg hv]; omega
          · simp only [applyElemTotalEffect, if_neg hcs, if_neg hv]; omega
          · intro a
            simp only [applyElemInEffect, applyElemOutEffect, if_neg hcs, if_neg hv,
              if_neg hc, if_neg hs]
            omega

theorem applySiacoinElements_spec {els : List SiacoinElementDiff} :
    ∀ {acc acc' : ElemAcc}, applySiacoinElements acc els = some acc' →
    acc'.state.index = acc.state.index ∧
    (acc'.state.circulatingSupply : Int) =
      acc.state.circulatingSupply + (els.map applyElemCircEffect).sum ∧
    (acc'.state.burnedSupply : Int) =
      acc.state.burnedSupply + (els.map applyElemBurnEffect).sum ∧
    (acc'.state.totalSupply : Int) =
      acc.state.totalSupply + (els.map applyElemTotalEffect).sum ∧
    ∀ a, deltaIncoming acc'.deltas a =
           deltaIncoming acc.deltas a + (els.map (applyElemInEffect a)).sum ∧
         deltaOutgoing acc'.deltas a =
           deltaOutgoing acc.deltas a + (els.map (applyElemOutEffect a)).sum := by
  induction els with
  | nil =>
    intro acc acc' h
    unfold applySiacoinElements at h
    injection h with h
    subst h
    exact ⟨rfl, by simp, by simp, by simp, fun a => ⟨by simp, by simp⟩⟩
  | cons e rest ih =>
    intro acc acc' h
    unfold applySiacoinElements at h
    cases h1 : applySiacoinElement acc e with
    | none => simp only [h1] at h; exact Option.noConfusion h
    | some acc1 =>
      simp only [h1] at h
      obtain ⟨ei, ec, eb, et, ed⟩ := applySiacoinElement_spec h1
      obtain ⟨ri, rc, rb, rt, rd⟩ := ih h
      refine ⟨ri.trans ei, ?_, ?_, ?_, ?_⟩
      · rw [List.map_cons, List.sum_cons]; omega
      · rw [List.map_cons, List.sum_cons]; omega
      · rw [List.map_cons, List.sum_cons]; omega
      · intro a
        obtain ⟨ein, eout⟩ := ed a
        obtain ⟨rin, rout⟩ := rd a
        rw [List.map_cons, List.sum_cons, List.map_cons, List.sum_cons]
        omega

theorem revertSiacoinElements_spec {els : List SiacoinElementDiff} :
    ∀ {acc acc' : ElemAcc}, revertSiacoinElements acc els = some acc' →
    acc'.state.index = acc.state.index ∧
    (acc'.state.circulatingSupply : Int) =
      acc.state.circulatingSupply - (els.map applyElemCircEffect).sum ∧
    (acc'.state.burnedSupply : Int) =
      acc.state.burnedSupply - (els.map applyElemBurnEffect).sum ∧
    (acc'.state.totalSupply : Int) =
      acc.state.totalSupply - (els.map applyElemTotalEffect).sum ∧
    ∀ a, deltaIncoming acc'.deltas a =
           deltaIncoming acc.deltas a + (els.map (applyElemOutEffect a)).sum ∧
         deltaOutgoing acc'.deltas a =
           deltaOutgoing acc.deltas a + (els.map (applyElemInEffect a)).sum := by
  induction els with
  | nil =>
    intro acc acc' h
    unfold revertSiacoinElements at h
    injection h with h
    subst h
    exact ⟨rfl, by simp, by simp, by simp, fun a => ⟨by simp, by simp⟩⟩
  | cons e rest ih =>
    intro acc acc' h
    unfold revertSiacoinElements at h
    cases h1 : revertSiacoinElement acc e with
    | none => simp only [h1] at h; exact Option.noConfusion h
    | some acc1 =>
      simp only [h1] at h
      obtain ⟨ei, ec, eb, et, ed⟩ := revertSiacoinElement_spec h1
      obtain ⟨ri, rc, rb, rt, rd⟩ := ih h
      refine ⟨ri.trans ei, ?_, ?_, ?_, ?_⟩
      · rw [List.map_cons, List.sum_cons]; omega
      · rw [List.map_cons, List.sum_cons]; omega
      · rw [List.map_cons, List.sum_cons]; omega
      · intro a
        obtain ⟨ein, eout⟩ := ed a
        obtain ⟨rin, rout⟩ := rd a
        rw [List.map_cons, List.sum_cons, List.map_cons, List.sum_cons]
        omega

theorem applyV2FileContractElement_spec {st st' : State} {c : V2FileContractElementDiff}
    (h : applyV2FileContractElement st c = some st') :
    st'.index = st.index ∧ st'.circulatingSupply = st.circulatingSupply ∧
    (st'.burnedSupply : Int) = st.burnedSupply + contractBurnEffect c ∧
    (st'.totalSupply : Int) = st.totalSupply - contractBurnEffect c := by
  unfold applyV2FileContractElement at h
  by_cases h1 : c.hasResolution = false
  · rw [if_pos h1] at h
    injection h with h
    subst h
    refine ⟨rfl, rfl, ?_, ?_⟩ <;>
      simp only [contractBurnEffect, if_pos h1] <;> omega
  · rw [if_neg h1] at h
    by_cases h2 : c.isExpiration = false
    · rw [if_pos h2] at h
      injection h with h
      subst h
      refine ⟨rfl, rfl, ?_, ?_⟩ <;>
        simp only [contractBurnEffect, if_neg h1, if_pos h2] <;> omega
    · rw [if_neg h2] at h
      by_cases h3 : (subWithUnderflow c.v2FileContract.hostOutputValue
          c.v2FileContract.missedHostValue).2 = false
      · rw [if_pos h3] at h
        injection h with h
        subst h
        refine ⟨rfl, rfl, ?_, ?_⟩ <;>
          simp only [contractBurnEffect, if_neg h1, if_neg h2, if_pos h3] <;> omega
      · rw [if_neg h3] at h
        cases h4 : cAdd st.burnedSupply (subWithUnderflow c.v2FileContract.hostOutputValue
            c.v2FileContract.missedHostValue).1 with
        | none => simp only [h4] at h; exact Option.noConfusion h
        | some b =>
          cases h5 : cSub st.totalSupply (subWithUnderflow c.v2FileContract.hostOutputValue
              c.v2FileContract.missedHostValue).1 with
          | none => simp only [h4, h5] at h; exact Option.noConfusion h
          | some t =>
            simp only [h4, h5] at h
            injection h with h
            subst h
            obtain ⟨-, hbe⟩ := cAdd_eq_some.mp h4
            obtain ⟨hle, hte⟩ := cSub_eq_some.mp h5
            refine ⟨rfl, rfl, ?_, ?_⟩ <;>
              simp only [contractBurnEffect, if_neg h1, if_neg h2, if_neg h3] <;> omega

theorem revertV2FileContractElement_spec {st st' : State} {c : V2FileContractElementDiff}
    (h : revertV2FileContractElement st c = some st') :
    st'.index = st.index ∧ st'.circulatingSupply = st.circulatingSupply ∧
    (st'.burnedSupply : Int) = st.burnedSupply - contractBurnEffect c ∧
    (st'.totalSupply : Int) = st.totalSupply + contractBurnEffect c := by
  unfold revertV2FileContractElement at h
  by_cases h1 : c.hasResolution = false
  · rw [if_pos h1] at h
    injection h with h
    subst h
    refine ⟨rfl, rfl, ?_, ?_⟩ <;>
      simp only [contractBurnEffect, if_pos h1] <;> omega
  · rw [if_neg h1] at h
    by_cases h2 : c.isExpiration = false
    · rw [if_pos h2] at h
      injection h with h
      subst h
      refine ⟨rfl, rfl, ?_, ?_⟩ <;>
        simp only [contractBurnEffect, if_neg h1, if_pos h2] <;> omega
    · rw [if_neg h2] at h
      by_cases h3 : (subWithUnderflow c.v2FileContract.hostOutputValue
          c.v2FileContract.missedHostValue).2 = false
      · rw [if_pos h3] at h
        injection h with h
        subst h
        refine ⟨rfl, rfl, ?_, ?_⟩ <;>
          simp only [contractBurnEffect, if_neg h1, if_neg h2, if_pos h3] <;> omega
      · rw [if_neg h3] at h
        cases h4 : cSub st.burnedSupply (subWithUnderflow c.v2FileContract.hostOutputValue
            c.v2FileContract.missedHostValue).1 with
        | none => simp only [h4] at h; exact Option.noConfusion h
        | some b =>
          cases h5 : cAdd st.totalSupply (subWithUnderflow c.v2FileContract.hostOutputValue
              c.v2FileContract.missedHostValue).1 with
          | none => simp only [h4, h5] at h; exact Option.noConfusion h
          | some t =>
            simp only [h4, h5] at h
            injection h with h
            subst h
            obtain ⟨hle, hbe⟩ := cSub_eq_some.mp h4
            obtain ⟨-, hte⟩ := cAdd_eq_some.mp h5
            refine ⟨rfl, rfl, ?_, ?_⟩ <;>
              simp only [contractBurnEffect, if_neg h1, if_neg h2, if_neg h3] <;> omega

theorem applyV2FileContractElements_spec {cts : List V2FileContractElementDiff} :
    ∀ {st st' : State}, applyV2FileContractElements st cts = some st' →
    st'.index = st.index ∧ st'.circulatingSupply = st.circulatingSupply ∧
    (st'.burnedSupply : Int) = st.burnedSupply + (cts.map contractBurnEffect).sum ∧
    (st'.totalSupply : Int) = st.totalSupply - (cts.map contractBurnEffect).sum := by
  induction cts with
  | nil =>
    intro st st' h
    unfold applyV2FileContractElements at h
    injection h with h
    subst h
    exact ⟨rfl, rfl, by simp, by simp⟩
  | cons c rest ih =>
    intro st st' h
    unfold applyV2FileContractElements at h
    cases h1 : applyV2FileContractElement st c with
    | none => simp only [h1] at h; exact Option.noConfusion h
    | some st1 =>
      simp only [h1] at h
      obtain ⟨ei, ec, eb, et⟩ := applyV2FileContractElement_spec h1
      obtain ⟨ri, rc, rb, rt⟩ := ih h
      refine ⟨ri.trans ei, rc.trans ec, ?_, ?_⟩
      · rw [List.map_cons, List.sum_cons]; omega
      · rw [List.map_cons, List.sum_cons]; omega

theorem revertV2FileContractElements_spec {cts : List V2FileContractElementDiff} :
    ∀ {st st' : State}, revertV2FileContractElements st cts = some st' →
    st'.index = st.index ∧ st'.circulatingSupply = st.circulatingSupply ∧
    (st'.burnedSupply : Int) = st.burnedSupply - (cts.map contractBurnEffect).sum ∧
    (st'.totalSupply : Int) = st.totalSupply + (cts.map contractBurnEffect).sum := by
  induction cts with
  | nil =>
    intro st st' h
    unfold revertV2FileContractElements at h
    injection h with h
    subst h
    exact ⟨rfl, rfl, by simp, by simp⟩
  | cons c rest ih =>
    intro st st' h
    unfold revertV2FileContractElements at h
    cases h1 : revertV2FileContractElement st c with
    | none => simp only [h1] at h; exact Option.noConfusion h
    | some st1 =>
      simp only [h1] at h
      obtain ⟨ei, ec, eb, et⟩ := revertV2FileContractElement_spec h1
      obtain ⟨ri, rc, rb, rt⟩ := ih h
      refine ⟨ri.trans ei, rc.trans ec, ?_, ?_⟩
      · rw [List.map_cons, List.sum_cons]; omega
      · rw [List.map_cons, List.sum_cons]; omega

theorem applyRewardOrGenesis_spec {rules : Rules} {agg : Agg} {cau : ApplyUpdate} {agg1 : Agg}
    (hh : ¬cau.state.index.height = 0)
    (h : applyRewardOrGenesis rules agg cau = Except.ok agg1) :
    agg1.deltas = agg.deltas ∧
    agg1.newFoundationAddresses = agg.newFoundationAddresses ∧
    agg1.state.index = agg.state.index ∧
    agg1.state.circulatingSupply = agg.state.circulatingSupply ∧
    agg1.state.burnedSupply = agg.state.burnedSupply ∧
    (agg1.state.totalSupply : Int) =
      agg.state.totalSupply + rewardEffect rules (cau.state.index.height - 1) := by
  unfold applyRewardOrGenesis at h
  rw [if_neg hh] at h
  cases h1 : cAdd agg.state.totalSupply
      (rules.blockRewardValue (cau.state.index.height - 1)) with
  | none => simp only [h1] at h; exact Except.noConfusion h
  | some total =>
    simp only [h1] at h
    obtain ⟨-, hte⟩ := cAdd_eq_some.mp h1
    cases h2 : rules.foundationSubsidyValue (cau.state.index.height - 1) with
    | none =>
      simp only [h2] at h
      injection h with h
      subst h
      refine ⟨rfl, rfl, rfl, rfl, rfl, ?_⟩
      simp only [rewardEffect, h2]
      omega
    | some v =>
      simp only [h2] at h
      cases h3 : cAdd total v with
      | none => simp only [h3] at h; exact Except.noConfusion h
      | some total' =>
        simp only [h3] at h
        injection h with h
        subst h
        obtain ⟨-, hte'⟩ := cAdd_eq_some.mp h3
        refine ⟨rfl, rfl, rfl, rfl, rfl, ?_⟩
        simp only [rewardEffect, h2]
        omega

theorem applyUpdateState_spec {rules : Rules} {agg agg' : Agg} {cau : ApplyUpdate}
    (hh : ¬cau.state.index.height = 0)
    (h : applyUpdateState rules agg cau = Except.ok agg') :
    agg'.state.index = cau.state.index ∧
    (agg'.state.circulatingSupply : Int) = agg.state.circulatingSupply +
      (cau.siacoinElements.map applyElemCircEffect).sum ∧
    (agg'.state.burnedSupply : Int) = agg.state.burnedSupply +
      (cau.siacoinElements.map applyElemBurnEffect).sum +
      (cau.v2FileContractElements.map contractBurnEffect).sum ∧
    (agg'.state.totalSupply : Int) = agg.state.totalSupply +
      rewardEffect rules (cau.state.index.height - 1) +
      (cau.siacoinElements.map applyElemTotalEffect).sum -
      (cau.v2FileContractElements.map contractBurnEffect).sum ∧
    ∀ a, deltaIncoming agg'.deltas a = deltaIncoming agg.deltas a +
           (cau.siacoinElements.map (applyElemInEffect a)).sum ∧
         deltaOutgoing agg'.deltas a = deltaOutgoing agg.deltas a +
           (cau.siacoinElements.map (applyElemOutEffect a)).sum := by
  unfold applyUpdateState at h
  cases h1 : applyRewardOrGenesis rules agg cau with
  | error e => simp only [h1] at h; exact Except.noConfusion h
  | ok agg1 =>
    simp only [h1] at h
    obtain ⟨g_d, g_f, g_i, g_c, g_b, g_t⟩ := applyRewardOrGenesis_spec hh h1
    cases h2 : applySiacoinElements ⟨agg1.state, agg1.deltas⟩ cau.siacoinElements with
    | none => simp only [h2] at h; exact Except.noConfusion h
    | some acc =>
      simp only [h2] at h
      obtain ⟨e_i, e_c, e_b, e_t, e_d⟩ := applySiacoinElements_spec h2
      cases h3 : applyV2FileContractElements acc.state cau.v2FileContractElements with
      | none => simp only [h3] at h; exact Except.noConfusion h
      | some st =>
        simp only [h3] at h
        obtain ⟨c_i, c_c, c_b, c_t⟩ := applyV2FileContractElements_spec h3
        cases h4 : scanTransactions agg1.newFoundationAddresses cau.block.transactions with
        | error e => simp only [h4] at h; exact Except.noConfusion h
        | ok addrs =>
          simp only [h4] at h
          injection h with h
          subst h
          have e_c2 : (acc.state.circulatingSupply : Int) =
              (agg1.state.circulatingSupply : Int) +
              (cau.siacoinElements.map applyElemCircEffect).sum := e_c
          have e_b2 : (acc.state.burnedSupply : Int) = (agg1.state.burnedSupply : Int) +
              (cau.siacoinElements.map applyElemBurnEffect).sum := e_b
          have e_t2 : (acc.state.totalSupply : Int) = (agg1.state.totalSupply : Int) +
              (cau.siacoinElements.map applyElemTotalEffect).sum := e_t
          refine ⟨rfl, ?_, ?_, ?_, ?_⟩
          · show (st.circulatingSupply : Int) = _
            omega
          · show (st.burnedSupply : Int) = _
            omega
          · show (st.totalSupply : Int) = _
            omega
          · intro a
            obtain ⟨din, dout⟩ := e_d a
            have din2 : deltaIncoming acc.deltas a = deltaIncoming agg1.deltas a +
                (cau.siacoinElements.map (applyElemInEffect a)).sum := din
            have dout2 : deltaOutgoing acc.deltas a = deltaOutgoing agg1.deltas a +
                (cau.siacoinElements.map (applyElemOutEffect a)).sum := dout
            show deltaIncoming acc.deltas a = _ ∧ deltaOutgoing acc.deltas a = _
            rw [g_d] at din2 dout2
            exact ⟨din2, dout2⟩

theorem revertUpdateState_spec {rules : Rules} {agg agg' : Agg} {cru : RevertUpdate}
    (h : revertUpdateState rules agg cru = Except.ok agg') :
    agg'.state.index = cru.state.index ∧
    agg'.newFoundationAddresses = agg.newFoundationAddresses ∧
    (agg'.state.circulatingSupply : Int) = agg.state.circulatingSupply -
      (cru.siacoinElements.map applyElemCircEffect).sum ∧
    (agg'.state.burnedSupply : Int) = agg.state.burnedSupply -
      (cru.siacoinElements.map applyElemBurnEffect).sum -
      (cru.v2FileContractElements.map contractBurnEffect).sum ∧
    (agg'.state.totalSupply : Int) = agg.state.totalSupply -
      rewardEffect rules cru.state.index.height -
      (cru.siacoinElements.map applyElemTotalEffect).sum +
      (cru.v2FileContractElements.map contractBurnEffect).sum ∧
    ∀ a, deltaIncoming agg'.deltas a = deltaIncoming agg.deltas a +
           (cru.siacoinElements.map (applyElemOutEffect a)).sum ∧
         deltaOutgoing agg'.deltas a = deltaOutgoing agg.deltas a +
           (cru.siacoinElements.map (applyElemInEffect a)).sum := by
  unfold revertUpdateState at h
  cases h1 : cSub agg.state.totalSupply
      (rules.blockRewardValue cru.state.index.height) with
  | none => simp only [h1] at h; exact Except.noConfusion h
  | some total =>
    simp only [h1] at h
    obtain ⟨hle1, hte1⟩ := cSub_eq_some.mp h1
    have hsub : ∃ total', (match rules.foundationSubsidyValue cru.state.index.height with
        | none => some total
        | some v => cSub total v) = some total' ∧
        (total' : Int) = agg.state.totalSupply -
          rewardEffect rules cru.state.index.height := by
      cases h2 : rules.foundationSubsidyValue cru.state.index.height with
      | none =>
        refine ⟨total, rfl, ?_⟩
        simp only [rewardEffect, h2]
        omega
      | some v =>
        cases h3 : cSub total v with
        | none =>
          simp only [h2, h3] at h
          exact Except.noConfusion h
        | some total' =>
          obtain ⟨hle2, hte2⟩ := cSub_eq_some.mp h3
          refine ⟨total', h3, ?_⟩
          simp only [rewardEffect, h2]
          omega
    obtain ⟨total', hmt, htv⟩ := hsub
    simp only [hmt] at h
    cases h4 : revertSiacoinElements ⟨{ agg.state with totalSupply := total' }, agg.deltas⟩
        cru.siacoinElements with
    | none => simp only [h4] at h; exact Except.noConfusion h
    | some acc =>
      simp only [h4] at h
      obtain ⟨e_i, e_c, e_b, e_t, e_d⟩ := revertSiacoinElements_spec h4
      have e_c2 : (acc.state.circulatingSupply : Int) =
          (agg.state.circulatingSupply : Int) -
          (cru.siacoinElements.map applyElemCircEffect).sum := e_c
      have e_b2 : (acc.state.burnedSupply : Int) = (agg.state.burnedSupply : Int) -
          (cru.siacoinElements.map applyElemBurnEffect).sum := e_b
      have e_t2 : (acc.state.totalSupply : Int) = (total' : Int) -
          (cru.siacoinElements.map applyElemTotalEffect).sum := e_t
      cases h5 : revertV2FileContractElements acc.state cru.v2FileContractElements with
      | none => simp only [h5] at h; exact Except.noConfusion h
      | some st =>
        simp only [h5] at h
        obtain ⟨c_i, c_c, c_b, c_t⟩ := revertV2FileContractElements_spec h5
        injection h with h
        subst h
        refine ⟨rfl, rfl, ?_, ?_, ?_, ?_⟩
        · show (st.circulatingSupply : Int) = _
          omega
        · show (st.burnedSupply : Int) = _
          omega
        · show (st.totalSupply : Int) = _
          omega
        · intro a
          obtain ⟨din, dout⟩ := e_d a
          have din2 : deltaIncoming acc.deltas a = deltaIncoming agg.deltas a +
              (cru.siacoinElements.map (applyElemOutEffect a)).sum := din
          have dout2 : deltaOutgoing acc.deltas a = deltaOutgoing agg.deltas a +
              (cru.siacoinElements.map (applyElemInEffect a)).sum := dout
          exact ⟨din2, dout2⟩

/-- C2: aggregating a single non-genesis block update in the apply direction
and then aggregating the same per-block data in the revert direction is a
no-op: total, circulating and burned supply and the chain index all return
bit for bit to their starting values, and the net recorded balance delta for
every address is zero (incoming equals outgoing). -/
theorem c2_apply_revert_noop (rules : Rules) (S0 : State)
    (au : ApplyUpdate) (ru : RevertUpdate)
    (hels : ru.siacoinElements = au.siacoinElements)
    (hcts : ru.v2FileContractElements = au.v2FileContractElements)
    (hidx : ru.state.index = S0.index)
    (hh : au.state.index.height = S0.index.height + 1)
    (A R : Agg)
    (hA : applyUpdateState rules ⟨S0, [], []⟩ au = Except.ok A)
    (hR : revertUpdateState rules A ru = Except.ok R) :
    R.state = S0 ∧ ∀ a, deltaIncoming R.deltas a = deltaOutgoing R.deltas a := by
  have hh0 : ¬au.state.index.height = 0 := by omega
  obtain ⟨a_i, a_c, a_b, a_t, a_d⟩ := applyUpdateState_spec hh0 hA
  obtain ⟨r_i, r_f, r_c, r_b, r_t, r_d⟩ := revertUpdateState_spec hR
  rw [hels] at r_c r_b r_t
  rw [hcts] at r_b r_t
  have hre : rewardEffect rules ru.state.index.height =
      rewardEffect rules (au.state.index.height - 1) := by
    have hru : ru.state.index.height = au.state.index.height - 1 := by
      rw [hidx]; omega
    rw [hru]
  rw [hre] at r_t
  have a_c2 : (A.state.circulatingSupply : Int) = (S0.circulatingSupply : Int) +
      (au.siacoinElements.map applyElemCircEffect).sum := a_c
  have a_b2 : (A.state.burnedSupply : Int) = (S0.burnedSupply : Int) +
      (au.siacoinElements.map applyElemBurnEffect).sum +
      (au.v2FileContractElements.map contractBurnEffect).sum := a_b
  have a_t2 : (A.state.totalSupply : Int) = (S0.totalSupply : Int) +
      rewardEffect rules (au.state.index.height - 1) +
      (au.siacoinElements.map applyElemTotalEffect).sum -
      (au.v2FileContractElements.map contractBurnEffect).sum := a_t
  constructor
  · have hicirc : R.state.circulatingSupply = S0.circulatingSupply := by omega
    have hiburn : R.state.burnedSupply = S0.burnedSupply := by omega
    have hitot : R.state.totalSupply = S0.totalSupply := by omega
    have hiidx : R.state.index = S0.index := by rw [r_i, hidx]
    exact State.ext hiidx hicirc hitot hiburn
  · intro a
    obtain ⟨ain, aout⟩ := a_d a
    obtain ⟨rin, rout⟩ := r_d a
    have ain2 : deltaIncoming A.deltas a = 0 +
        (au.siacoinElements.map (applyElemInEffect a)).sum := ain
    have aout2 : deltaOutgoing A.deltas a = 0 +
        (au.siacoinElements.map (applyElemOutEffect a)).sum := aout
    rw [hels] at rin rout
    omega

theorem c2_apply_revert_noop_witness :
    applyUpdateState roundTripRules ⟨⟨⟨1, 1⟩, 10, 100, 3⟩, [], []⟩ roundTripApply =
      Except.ok ⟨⟨⟨2, 2⟩, 11, 103, 5⟩, [⟨7, 5, 0⟩, ⟨8, 0, 4⟩], []⟩ ∧
    revertUpdateState roundTripRules ⟨⟨⟨2, 2⟩, 11, 103, 5⟩, [⟨7, 5, 0⟩, ⟨8, 0, 4⟩], []⟩
      roundTripRevert = Except.ok ⟨⟨⟨1, 1⟩, 10, 100, 3⟩, [⟨7, 5, 5⟩, ⟨8, 4, 4⟩], []⟩ ∧
    (⟨⟨⟨1, 1⟩, 10, 100, 3⟩, [⟨7, 5, 5⟩, ⟨8, 4, 4⟩], []⟩ : Agg).state = ⟨⟨1, 1⟩, 10, 100, 3⟩ ∧
    deltaIncoming [⟨7, 5, 5⟩, ⟨8, 4, 4⟩] 7 = deltaOutgoing [⟨7, 5, 5⟩, ⟨8, 4, 4⟩] 7 := by
  refine ⟨rfl, rfl, ?_, ?_⟩
  · exact (c2_apply_revert_noop roundTripRules ⟨⟨1, 1⟩, 10, 100, 3⟩ roundTripApply
      roundTripRevert rfl rfl rfl rfl ⟨⟨⟨2, 2⟩, 11, 103, 5⟩, [⟨7, 5, 0⟩, ⟨8, 0, 4⟩], []⟩
      ⟨⟨⟨1, 1⟩, 10, 100, 3⟩, [⟨7, 5, 5⟩, ⟨8, 4, 4⟩], []⟩ rfl rfl).1
  · exact (c2_apply_revert_noop roundTripRules ⟨⟨1, 1⟩, 10, 100, 3⟩ roundTripApply
      roundTripRevert rfl rfl rfl rfl ⟨⟨⟨2, 2⟩, 11, 103, 5⟩, [⟨7, 5, 0⟩, ⟨8, 0, 4⟩], []⟩
      ⟨⟨⟨1, 1⟩, 10, 100, 3⟩, [⟨7, 5, 5⟩, ⟨8, 4, 4⟩], []⟩ rfl rfl).2 7

/-- C1 as stated is false on the code: the aggregator does not consult the
treasury flags at all, so a created transfer crediting the flagged
foundation address 7 with value 5 is included in the circulating-supply
delta (the committed circulating supply rises from 0 to 5), not excluded
from it. -/
theorem c1_counterexample_aggregator_includes_treasury :
    commitBatch (scenarioRules 5) emptyStore ([], [genesisUpdate 7]) =
      Except.ok ⟨[⟨7, 0, true⟩], ⟨⟨1, 0⟩, 0, 0, 0⟩⟩ ∧
    isFoundationFlagged [⟨7, 0, true⟩] 7 = true ∧
    commitBatch (scenarioRules 5) ⟨[⟨7, 0, true⟩], ⟨⟨1, 0⟩, 0, 0, 0⟩⟩
      ([], [subsidyUpdate 7 5]) =
      Except.ok ⟨[⟨7, 5, true⟩, ⟨0, 0, false⟩], ⟨⟨2, 1⟩, 5, 5, 0⟩⟩ ∧
    ¬(5 : Nat) = 0 ∧
    (⟨[⟨7, 5, true⟩, ⟨0, 0, false⟩], ⟨⟨2, 1⟩, 5, 5, 0⟩⟩ : StoreState).global.circulatingSupply =
      (⟨[⟨7, 0, true⟩], ⟨⟨1, 0⟩, 0, 0, 0⟩⟩ : StoreState).global.circulatingSupply + 5 := by
  exact ⟨rfl, rfl, rfl, by decide, rfl⟩

/-- C1 (amended): the aggregator records a foundation-addressed transfer as
an ordinary address-balance delta and includes its value in the stored
circulating supply; the treasury exclusion happens at query time, where the
reported circulating supply is the stored circulating supply minus the
foundation treasury balance.  Hence when genesis designates F as treasury
and a block credits F with subsidy X, the reported circulating supply does
not increase by X, F's tracked balance increases by X and the
foundation-treasury query returns X. -/
theorem c1_foundation_exclusion_amended (F : Address) (X : Nat)
    (hF : ¬F = VoidAddress) (hX : X < currencyModulus) :
    ∃ st1 st2 : StoreState,
      commitBatch (scenarioRules X) emptyStore ([], [genesisUpdate F]) = Except.ok st1 ∧
      commitBatch (scenarioRules X) st1 ([], [subsidyUpdate F X]) = Except.ok st2 ∧
      st2.global.circulatingSupply = st1.global.circulatingSupply + X ∧
      reportedCirculatingSupply st2 = reportedCirculatingSupply st1 ∧
      lookupBalance st2.rows F = lookupBalance st1.rows F + X ∧
      foundationTreasury st2 = some X := by
  have hF0 : ¬F = 0 := hF
  have h0F : ¬(0 : Nat) = F := fun h => hF0 h.symm
  have hM0 : 0 < currencyModulus := by unfold currencyModulus; norm_num
  have hx1 : 0 + X < currencyModulus := by omega
  have h00 : (0 : Nat) + 0 < currencyModulus := by omega
  refine ⟨⟨[⟨F, 0, true⟩], ⟨⟨1, 0⟩, 0, 0, 0⟩⟩,
    ⟨[⟨F, X, true⟩, ⟨0, 0, false⟩], ⟨⟨2, 1⟩, X, X, 0⟩⟩, ?_, ?_, ?_, ?_, ?_, ?_⟩
  · have hpg : processBatch (scenarioRules X) emptyStore.global [] [genesisUpdate F] =
        Except.ok ⟨⟨⟨1, 0⟩, 0, 0, 0⟩, [], [F]⟩ := by
      simp only [processBatch, revertUpdates, applyUpdates, applyUpdateState,
        applyRewardOrGenesis, genesisUpdate, scenarioRules, addGenesisOutputs,
        applySiacoinElements, applyV2FileContractElements, scanTransactions, scanTxnArbData,
        defaultAddressDelta, emptyStore]
      norm_num [hF0, VoidAddress]
    have hu1 : updateState emptyStore ⟨⟨1, 0⟩, 0, 0, 0⟩ [] [F] =
        (Except.ok ⟨[⟨F, 0, true⟩], ⟨⟨1, 0⟩, 0, 0, 0⟩⟩,
         ⟨[⟨F, 0, true⟩], ⟨⟨1, 0⟩, 0, 0, 0⟩⟩) := by
      simp [updateState, runTransaction, updateStateBody, insertFoundationAddresses,
        insertFoundationAddress, containsAddress, applyAddressDeltas, emptyStore]
    simp only [commitBatch, hpg, hu1]
  · have hps : processBatch (scenarioRules X)
        (StoreState.global ⟨[⟨F, 0, true⟩], ⟨⟨1, 0⟩, 0, 0, 0⟩⟩) [] [subsidyUpdate F X] =
        Except.ok ⟨⟨⟨2, 1⟩, X, X, 0⟩, [⟨0, 0, 0⟩, ⟨F, X, 0⟩], []⟩ := by
      simp only [processBatch, revertUpdates, applyUpdates, applyUpdateState,
        applyRewardOrGenesis, subsidyUpdate, scenarioRules, applySiacoinElements,
        applySiacoinElement, incrementAddressDelta, applyV2FileContractElements,
        scanTransactions, scanTxnArbData, defaultAddressDelta]
      norm_num [hF0, hX, hx1, h00, hM0, VoidAddress, cAdd, cSub, incrementAddressDelta,
        List.replicate]
    have hu2 : updateState ⟨[⟨F, 0, true⟩], ⟨⟨1, 0⟩, 0, 0, 0⟩⟩ ⟨⟨2, 1⟩, X, X, 0⟩
        [⟨0, 0, 0⟩, ⟨F, X, 0⟩] [] =
        (Except.ok ⟨[⟨F, X, true⟩, ⟨0, 0, false⟩], ⟨⟨2, 1⟩, X, X, 0⟩⟩,
         ⟨[⟨F, X, true⟩, ⟨0, 0, false⟩], ⟨⟨2, 1⟩, X, X, 0⟩⟩) := by
      simp [updateState, runTransaction, updateStateBody, insertFoundationAddresses,
        applyAddressDeltas, applyAddressDelta, lookupBalance, upsertBalance, containsAddress,
        List.find?, cAdd, cSub, hF0, h0F, hX, hx1, h00]
    simp only [commitBatch, hps, hu2]
  · show X = 0 + X
    omega
  · have hr2 : reportedCirculatingSupply
        ⟨[⟨F, X, true⟩, ⟨0, 0, false⟩], ⟨⟨2, 1⟩, X, X, 0⟩⟩ = some 0 := by
      simp [reportedCirculatingSupply, foundationTreasury, addFoundationBalances,
        List.filter, cAdd, cSub, hx1, hX]
    have hr1 : reportedCirculatingSupply ⟨[⟨F, 0, true⟩], ⟨⟨1, 0⟩, 0, 0, 0⟩⟩ = some 0 := by
      simp [reportedCirculatingSupply, foundationTreasury, addFoundationBalances,
        List.filter, cAdd, cSub, hM0]
    rw [hr1, hr2]
  · show lookupBalance [⟨F, X, true⟩, ⟨0, 0, false⟩] F =
      lookupBalance [⟨F, 0, true⟩] F + X
    simp [lookupBalance, List.find?]
  · show foundationTreasury ⟨[⟨F, X, true⟩, ⟨0, 0, false⟩], ⟨⟨2, 1⟩, X, X, 0⟩⟩ = some X
    simp [foundationTreasury, addFoundationBalances, List.filter, cAdd, hx1, hX]

theorem c1_foundation_exclusion_amended_witness :
    ¬(7 : Nat) = VoidAddress ∧ (5 : Nat) < currencyModulus ∧
    ∃ st1 st2 : StoreState,
      commitBatch (scenarioRules 5) emptyStore ([], [genesisUpdate 7]) = Except.ok st1 ∧
      commitBatch (scenarioRules 5) st1 ([], [subsidyUpdate 7 5]) = Except.ok st2 ∧
      st2.global.circulatingSupply = st1.global.circulatingSupply + 5 ∧
      reportedCirculatingSupply st2 = reportedCirculatingSupply st1 ∧
      lookupBalance st2.rows 7 = lookupBalance st1.rows 7 + 5 ∧
      foundationTreasury st2 = some 5 :=
  ⟨by decide, by decide, c1_foundation_exclusion_amended 7 5 (by decide) (by decide)⟩

end CmcSupply
